import Mathlib

/-!
Verification development for the TREA/FWEA cloud relay
(src/trea_fwea_cloud_api.py).

The Python code is shallowly embedded:

* JSON scalar values are modelled by an inductive `PyVal`
  (`None`, `bool`, `int`, `float`, `str`).  Python floats are modelled by
  rationals: none of the properties below depends on IEEE rounding, only on
  whether the coercion `float(x)` succeeds and on default values such as
  `0.0`.  Nested JSON containers never flow through the operations the
  properties talk about, so they are not modelled.
* Python dicts are modelled by association lists with unique keys
  (`Dict := List (String × PyVal)`); `d[k] = v` keeps the position of an
  existing key, as CPython does.
* Fallible Python expressions (coercions that can raise) are modelled in
  `Option`; a raised exception is `none`.
* Python's `str.isdigit` accepts Unicode digit-classified characters
  (for example the superscripts `¹ ² ³`) that `int()` rejects; the model
  carries the ASCII decimal digits plus the superscript and subscript
  digits, which is faithful to CPython on every string appearing below.
  `str.upper`, `str.strip` and `int`/`float` string parsing are modelled
  for ASCII text (no exponent notation, no underscore separators); all
  concrete inputs below stay inside that fragment.
-/

/-- Model of the JSON scalar values handled by the service. -/
inductive PyVal where
  | none
  | bool (b : Bool)
  | int (n : Int)
  | float (q : ℚ)
  | str (s : String)
deriving DecidableEq, Repr

/-- Python dict holding JSON scalars: an association list, unique keys. -/
abbrev Dict := List (String × PyVal)

/-- Python truthiness of a scalar (`bool(v)`). -/
def pyTruthy : PyVal → Bool
  | .none => false
  | .bool b => b
  | .int n => n != 0
  | .float q => q != 0
  | .str s => s != ""

/-- `d.get(k)` returning `none` when the key is absent (first binding of
the key; keys are unique in every dict the code builds). -/
def dGet? (d : Dict) (k : String) : Option PyVal :=
  match d with
  | [] => Option.none
  | p :: ps => if p.1 = k then some p.2 else dGet? ps k

/-- `k in d`. -/
def dHas (d : Dict) (k : String) : Bool :=
  (dGet? d k).isSome

/-- `d.get(k, v)`. -/
def dGetD (d : Dict) (k : String) (v : PyVal) : PyVal :=
  (dGet? d k).getD v

/-- `d[k] = v`: replace in place when the key exists, else append. -/
def dSet (d : Dict) (k : String) (v : PyVal) : Dict :=
  match d with
  | [] => [(k, v)]
  | p :: ps => if p.1 = k then (k, v) :: ps else p :: dSet ps k v

/-- `d.setdefault(k, v)`. -/
def dSetDefault (d : Dict) (k : String) (v : PyVal) : Dict :=
  if dHas d k then d else d ++ [(k, v)]

/-- Characters stripped by Python's `str.strip()`. -/
def isPySpace (c : Char) : Bool :=
  c == ' ' || c == '\t' || c == '\n' || c == '\r' || c == '\x0b' || c == '\x0c'

/-- Python `s.strip()`. -/
def pyStrip (s : String) : String :=
  ⟨((s.data.dropWhile isPySpace).reverse.dropWhile isPySpace).reverse⟩

/-- The superscript and subscript digit characters: classified as digits by
Python's `str.isdigit` but rejected by `int()`. -/
def superscriptDigits : List Char :=
  ['⁰', '¹', '²', '³', '⁴', '⁵', '⁶', '⁷', '⁸', '⁹',
   '₀', '₁', '₂', '₃', '₄', '₅', '₆', '₇', '₈', '₉']

/-- A character accepted by Python's `str.isdigit`. -/
def isPyDigitChar (c : Char) : Bool :=
  c.isDigit || superscriptDigits.contains c

/-- Python `s.isdigit()`: non-empty and all characters digit-classified. -/
def pyIsDigit (s : String) : Bool :=
  s != "" && s.data.all isPyDigitChar

/-- Numeric value of a list of ASCII decimal digits. -/
def digitsVal (cs : List Char) : Nat :=
  cs.foldl (fun a c => 10 * a + (c.toNat - 48)) 0

/-- An unsigned run of ASCII decimal digits, or failure. -/
def decDigits? (cs : List Char) : Option Nat :=
  if cs ≠ [] ∧ cs.all Char.isDigit then some (digitsVal cs) else none

/-- Python `int(s)` on a string: strip, optional sign, decimal digits. -/
def pyIntOfString (s : String) : Option Int :=
  match (pyStrip s).data with
  | [] => Option.none
  | c :: rest =>
      if c = '+' then (decDigits? rest).map Int.ofNat
      else if c = '-' then (decDigits? rest).map (fun n => -(n : Int))
      else (decDigits? (c :: rest)).map Int.ofNat

/-- Unsigned decimal-fraction literal as a rational (`"12"`, `"1.5"`,
`"1."`, `".5"`). -/
def decFrac? (cs : List Char) : Option ℚ :=
  match cs.span Char.isDigit with
  | (ip, []) => if ip ≠ [] then some ((digitsVal ip : ℚ)) else none
  | (ip, '.' :: fp) =>
      if (ip ≠ [] ∨ fp ≠ []) ∧ fp.all Char.isDigit then
        some ((digitsVal ip : ℚ) + (digitsVal fp : ℚ) / ((10 : ℚ) ^ fp.length))
      else none
  | _ => none

/-- Python `float(s)` on a string: strip, optional sign, decimal literal. -/
def pyFloatOfString (s : String) : Option ℚ :=
  match (pyStrip s).data with
  | [] => Option.none
  | c :: rest =>
      if c = '+' then decFrac? rest
      else if c = '-' then (decFrac? rest).map Neg.neg
      else decFrac? (c :: rest)

/-- Truncation of a rational toward zero, as Python `int(float)`. -/
def ratTrunc (q : ℚ) : Int :=
  if q < 0 then -⌊-q⌋ else ⌊q⌋

/-- Python `int(v)`: fails (raises) on `None` and on non-numeric strings. -/
def pyIntCoe : PyVal → Option Int
  | .none => none
  | .bool b => some (if b then 1 else 0)
  | .int n => some n
  | .float q => some (ratTrunc q)
  | .str s => pyIntOfString s

/-- Python `float(v)`: fails (raises) on `None` and on non-numeric strings. -/
def pyFloatCoe : PyVal → Option ℚ
  | .none => none
  | .bool b => some (if b then 1 else 0)
  | .int n => some (n : ℚ)
  | .float q => some q
  | .str s => pyFloatOfString s

/-- Rendering of a float by `str`.  Python's repr of an integral float is
`"<n>.0"`; a non-integral float renders with a decimal point.  The two
places `str` is applied to a float only need that the result is never a
pure digit string and never an action name, which holds for both arms. -/
def floatStr (q : ℚ) : String :=
  if q.den = 1 then toString q.num ++ ".0"
  else toString q.num ++ "/" ++ toString q.den

/-- Python `str(v)` on the modelled scalars. -/
def pyStrOf : PyVal → String
  | .none => "None"
  | .bool true => "True"
  | .bool false => "False"
  | .int n => toString n
  | .float q => floatStr q
  | .str s => s

/-- Python `s.upper()` (ASCII fragment). -/
def pyUpper (s : String) : String :=
  ⟨s.data.map Char.toUpper⟩

/-- `int(d.get(k, 0) or 0)`: the store's key coercion for `id` and `seq`;
falsy values (absent, `None`, `0`, `""`, `False`) collapse to `0`, other
values go through `int()` and may raise. -/
def keyIntM (d : Dict) (k : String) : Option Int :=
  let v := dGetD d k (.int 0)
  pyIntCoe (if pyTruthy v then v else .int 0)

example : pyIsDigit "²" = true := by decide
example : pyIntOfString "²" = none := by decide
example : pyIntOfString " 42 " = some 42 := by rfl
example : (pyFloatOfString "1.5").isSome = true := by rfl
example : pyFloatOfString "abc" = none := by rfl
example : pyFloatCoe .none = none := by rfl
example : keyIntM [("seq", .int 5)] "seq" = some 5 := by rfl
example : keyIntM [] "seq" = some 0 := by rfl
example : keyIntM [("seq", .str "abc")] "seq" = none := by rfl
example : pyStrip "  x  " = "x" := by rfl

/-!  ## Stable sort

Python's `list.sort(key=...)` is stable.  It is modelled by a stable
insertion sort: an element is inserted after every earlier element whose
key is not greater, so elements with equal keys keep their order. -/

/-- Evaluate `f` on each element left to right, failing at the first
failure: the shape of a Python loop or comprehension whose body may
raise. -/
def mapO (f : α → Option β) : List α → Option (List β)
  | [] => some []
  | a :: as => do
      let b ← f a
      let bs ← mapO f as
      pure (b :: bs)

/-- Insert `x` after every element `y` with `lt y x`. -/
def insLt (lt : α → α → Bool) (x : α) : List α → List α
  | [] => [x]
  | y :: ys => if lt y x then y :: insLt lt x ys else x :: y :: ys

/-- Stable insertion sort by the strict comparison `lt`. -/
def isort (lt : α → α → Bool) : List α → List α
  | [] => []
  | x :: xs => insLt lt x (isort lt xs)

/-!  ## The event store

`EventStore` holds the in-memory event list and the id counter
(`self._events`, `self._last_id`).  The durable log is modelled as a list
of lines; `json.dumps`/`json.loads` of an event dict round-trips, so a
well-formed line is modelled as the dict itself, and the other shapes a
line can take (blank, unparseable, JSON but not an object) are the
remaining constructors. -/

structure Store where
  events : List Dict
  lastId : Int
deriving Repr

/-- One line of the durable JSONL log. -/
inductive DiskLine where
  | blank
  | malformed
  | jsonOther
  | jsonDict (d : Dict)
deriving DecidableEq, Repr

/-- The dict a line parses to, when it is a JSON object. -/
def recOf : DiskLine → Option Dict
  | .jsonDict d => some d
  | _ => none

/-- A fresh store with no persisted state (`EventStore.__init__` with an
empty or absent log). -/
def Store.empty : Store := ⟨[], 0⟩

/-- The record built by `EventStore.add`: copy the validated event,
`setdefault` the event time, then stamp the assigned id and the server
time.  The caller's own `id` field, if any, is overwritten. -/
def mkStored (now : Int) (i : Int) (evt : Dict) : Dict :=
  dSet (dSet (dSetDefault evt "ts" (.int now)) "id" (.int i)) "server_ts" (.int now)

/-- `EventStore.add`: increment the counter, build the stored record,
append it, return the assigned id.  The durable write (modelled by the
third component: the lines appended to the log when persistence is on)
happens inside the same lock region; its failures are swallowed. -/
def Store.add (s : Store) (now : Int) (evt : Dict) : Store × Int × List DiskLine :=
  let newId := s.lastId + 1
  let r := mkStored now newId evt
  (⟨s.events ++ [r], newId⟩, newId, [.jsonDict r])

/-- Iterated `add`: the final store, the returned ids in call order, and
the lines appended to the durable log. -/
def Store.addAll (s : Store) (now : Int) : List Dict → Store × List Int × List DiskLine
  | [] => (s, [], [])
  | e :: es =>
      let r1 := s.add now e
      let r2 := r1.1.addAll now es
      (r2.1, r1.2.1 :: r2.2.1, r1.2.2 ++ r2.2.2)

/-- Ascending comparison on the `id` sort key. -/
def idLt (a b : Int × Dict) : Bool := a.1 < b.1

/-- Ascending lexicographic comparison on the `(seq, id)` sort key. -/
def seqIdLt (a b : (Int × Int) × Dict) : Bool :=
  a.1.1 < b.1.1 || (a.1.1 == b.1.1 && a.1.2 < b.1.2)

/-- `EventStore.since`: copy (filtering by `id > since_id` unless the
cursor is `≤ 0`), then sort the copy by `int(e.get("id", 0) or 0)`.
A record whose `id` field does not coerce raises, modelled by `none`. -/
def Store.since (s : Store) (sinceId : Int) : Option (List Dict) := do
  let keyed ← mapO (fun e => (keyIntM e "id").map (fun i => (i, e))) s.events
  let kept := if sinceId ≤ 0 then keyed else keyed.filter (fun p => sinceId < p.1)
  pure ((isort idLt kept).map (fun p => p.2))

/-- `EventStore.since_seq`: strip the key and answer `[]` when it is
blank; otherwise keep the records whose `trader_key` equals the stripped
key and whose `seq` (0 when absent or falsy) exceeds the cursor, sorted
by `(seq, id)`.  A non-coercible `seq` on a matching record, or a
non-coercible `id` on a kept record, raises (`none`). -/
def Store.since_seq (s : Store) (traderKey : String) (sinceSeq : Int) :
    Option (List Dict) :=
  let tk := pyStrip traderKey
  if tk = "" then some []
  else do
    let mine := s.events.filter (fun e => dGet? e "trader_key" == some (.str tk))
    let seqd ← mapO (fun e => (keyIntM e "seq").map (fun n => (n, e))) mine
    let out := seqd.filter (fun p => sinceSeq < p.1)
    let keyed ← mapO (fun p => (keyIntM p.2 "id").map (fun i => ((p.1, i), p.2))) out
    pure ((isort seqIdLt keyed).map (fun p => p.2))

/-- One line of `EventStore._load_from_disk`: blank and unparseable lines
and non-object JSON are skipped; an object is appended and then the id
counter is raised to its `id`.  When that coercion raises, the inner
handler has already appended the record, so it stays and only the counter
update is lost. -/
def loadStep (acc : List Dict × Int) (l : DiskLine) : List Dict × Int :=
  match recOf l with
  | Option.none => acc
  | some d =>
      (acc.1 ++ [d],
       match keyIntM d "id" with
       | some i => max acc.2 i
       | Option.none => acc.2)

/-- `EventStore._load_from_disk`: fold over the lines, then sort the
loaded records by `id`.  If some loaded record's `id` does not coerce the
sort raises; the outer handler logs and leaves the list as loaded. -/
def loadFromDisk (lines : List DiskLine) : List Dict × Int :=
  let p := lines.foldl loadStep ([], 0)
  match mapO (fun e => (keyIntM e "id").map (fun i => (i, e))) p.1 with
  | some keyed => ((isort idLt keyed).map (fun q => q.2), p.2)
  | Option.none => p

/-- A store recovered from a durable log (`EventStore.__init__` with a
persist path whose file holds `lines`). -/
def Store.ofDisk (lines : List DiskLine) : Store :=
  ⟨(loadFromDisk lines).1, (loadFromDisk lines).2⟩

example : (Store.empty.add 100 [("a", .int 7)]).2.1 = 1 := by rfl
example :
    (Store.empty.add 100 [("a", .int 7)]).1.events =
      [[("a", .int 7), ("ts", .int 100), ("id", .int 1), ("server_ts", .int 100)]] := by
  rfl
example : (Store.ofDisk [.blank, .malformed]).lastId = 0 := by rfl
example :
    Store.ofDisk [.jsonDict [("id", .int 2)], .blank, .jsonDict [("id", .int 1)]] =
      ⟨[[("id", .int 1)], [("id", .int 2)]], 2⟩ := by rfl
example :
    (Store.mk [[("id", .int 2), ("x", .int 0)], [("id", .int 1)]] 2).since 0 =
      some [[("id", .int 1)], [("id", .int 2), ("x", .int 0)]] := by rfl
example :
    (Store.mk [[("id", .int 1)], [("id", .int 2)]] 2).since 1 =
      some [[("id", .int 2)]] := by rfl
example :
    (Store.mk [[("trader_key", .str "x"), ("seq", .int 5), ("id", .int 1)]] 1).since_seq
      "x" 4 = some [[("trader_key", .str "x"), ("seq", .int 5), ("id", .int 1)]] := by rfl
example :
    (Store.mk [[("trader_key", .str "x"), ("seq", .int 5), ("id", .int 1)]] 1).since_seq
      "x" 5 = some [] := by rfl
example :
    (Store.mk [[("trader_key", .str " x "), ("seq", .int 5), ("id", .int 1)]] 1).since_seq
      " x " 0 = some [] := by rfl

/-!  ## The event validator (`validate_event`) -/

/-- The validator's failure modes.  The Python code raises `ValueError`
with a message; the three message shapes are the three constructors (the
free-text reason inside the `Invalid types:` message is not modelled). -/
inductive VErr where
  | missingFields (ks : List String)
  | invalidTypes
  | unsupportedAction (a : String)
deriving DecidableEq, Repr

def REQUIRED_FIELDS : List String :=
  ["ts", "trader_id", "action", "symbol", "volume", "sl", "tp",
   "position_id", "deal_ticket", "order_ticket", "magic", "comment"]

def ACTIONS : List String :=
  ["OPEN_BUY", "OPEN_SELL", "MODIFY", "CLOSE", "BUY", "SELL",
   "BUY_MARKET", "SELL_MARKET"]

def LEGACY_ACTIONS : List String := ["OPEN", "CLOSE_ALL"]

/-- `int(evt["ts"]) if str(evt["ts"]).isdigit() else int(time.time())`:
the digit test is on the string form, the conversion on the original
value. -/
def coerceTs (now : Int) (v : PyVal) : Option Int :=
  if pyIsDigit (pyStrOf v) then pyIntCoe v else some now

/-- The timestamp line of the validator (`evt["ts"] = ...`). -/
def coerceTsAt (now : Int) (d : Dict) : Option Dict := do
  let v ← dGet? d "ts"
  let t ← coerceTs now v
  pure (dSet d "ts" (.int t))

/-- `evt["volume"] = float(evt["volume"])`. -/
def coerceVolAt (d : Dict) : Option Dict := do
  let v ← dGet? d "volume"
  let q ← pyFloatCoe v
  pure (dSet d "volume" (.float q))

/-- `evt[k] = float(evt.get(k, 0.0))`. -/
def coerceFloatAt (d : Dict) (k : String) : Option Dict :=
  (pyFloatCoe (dGetD d k (.float 0))).map (fun q => dSet d k (.float q))

/-- `evt[k] = int(evt.get(k, 0))`. -/
def coerceIntAt (d : Dict) (k : String) : Option Dict :=
  (pyIntCoe (dGetD d k (.int 0))).map (fun n => dSet d k (.int n))

/-- `if k in evt: evt[k] = int(evt.get(k, 0))`. -/
def coerceOptIntAt (d : Dict) (k : String) : Option Dict :=
  match dGet? d k with
  | some v => (pyIntCoe v).map (fun n => dSet d k (.int n))
  | Option.none => some d

/-- `if k in evt: evt[k] = float(evt[k])`. -/
def coerceOptFloatAt (d : Dict) (k : String) : Option Dict :=
  match dGet? d k with
  | some v => (pyFloatCoe v).map (fun q => dSet d k (.float q))
  | Option.none => some d

/-- The `try` block of `validate_event`: the coercions in source order;
any raised exception collapses to `none` (reported as `InvalidTypes`). -/
def tryCoerce (now : Int) (evt : Dict) : Option Dict := do
  let e ← coerceTsAt now evt
  let e ← coerceVolAt e
  let e ← coerceFloatAt e "sl"
  let e ← coerceFloatAt e "tp"
  let e ← coerceIntAt e "position_id"
  let e ← coerceIntAt e "deal_ticket"
  let e ← coerceIntAt e "order_ticket"
  let e ← coerceIntAt e "magic"
  let e ← coerceOptIntAt e "seq"
  let e ← coerceOptFloatAt e "acc_balance"
  let e ← coerceOptFloatAt e "acc_equity"
  pure e

/-- The upper-cased string form of the event's `action` field. -/
def actionUpper (d : Dict) : String :=
  pyUpper (pyStrOf ((dGet? d "action").getD .none))

/-- `validate_event`: missing-field check, type coercions, then action
normalization; the action is upper-cased and stored before the membership
test, so the error names the upper-cased value. -/
def validate_event (now : Int) (evt : Dict) : Except VErr Dict :=
  let missing := REQUIRED_FIELDS.filter (fun k => !(dHas evt k))
  if missing ≠ [] then .error (.missingFields missing)
  else
    match tryCoerce now evt with
    | Option.none => .error .invalidTypes
    | some e =>
        let act := actionUpper e
        let e2 := dSet e "action" (.str act)
        if ACTIONS.contains act || LEGACY_ACTIONS.contains act then .ok e2
        else .error (.unsupportedAction act)

/-!  ## The access gate (`require_token_flexible`) -/

/-- Outcome of the token check on a protected route. -/
inductive AuthOutcome where
  | handler
  | err401
  | err403
deriving DecidableEq, Repr

/-- Python `s.startswith(p)`. -/
def pyStartsWith (s p : String) : Bool :=
  s.data.take p.data.length == p.data

/-- Python `s[n:]`. -/
def pyDrop (s : String) (n : Nat) : String :=
  ⟨s.data.drop n⟩

/-- The token the request presents: the text after `"Bearer "` in the
`Authorization` header (`auth.split(" ", 1)[1]`, which is `auth[7:]`
since the header starts with `"Bearer "` and its first space is at index
6), stripped; when that is empty, the stripped `token` query parameter
(default `""`). -/
def presentedToken (authHeader : String) (queryToken : String) : String :=
  let t := if pyStartsWith authHeader "Bearer " then pyStrip (pyDrop authHeader 7) else ""
  if t = "" then pyStrip queryToken else t

/-- `require_token_flexible`: 401 when no token is presented, 403 when
the token is not in the allow-list, else run the wrapped handler. -/
def require_token_flexible (validTokens : List String) (authHeader : String)
    (queryToken : String) : AuthOutcome :=
  let token := presentedToken authHeader queryToken
  if token = "" then .err401
  else if !(validTokens.contains token) then .err403
  else .handler

/-!  ## The stream route (`stream_ndjson`), after the token gate -/

/-- `stream_ndjson`: when both a non-blank `trader_key` and a non-empty
`since_seq` are supplied, use the keyed cursor (`int` parse falling back
to 0); otherwise use the legacy `since` cursor (`""` collapses to `"0"`
via `or "0"`, and an unparseable value falls back to 0).  Arguments are
the raw query parameters (`none` = absent). -/
def stream_ndjson (s : Store) (traderKeyArg sinceSeqArg sinceArg : Option String) :
    Option (List Dict) :=
  let trader_key := pyStrip (traderKeyArg.getD "")
  let since_seq_raw := pyStrip (sinceSeqArg.getD "")
  if trader_key ≠ "" ∧ since_seq_raw ≠ "" then
    let ss := (pyIntOfString since_seq_raw).getD 0
    s.since_seq trader_key ss
  else
    let sraw0 := sinceArg.getD "0"
    let since_raw := pyStrip (if sraw0 = "" then "0" else sraw0)
    let sid := (pyIntOfString since_raw).getD 0
    s.since sid

/-!  ## The lock trace of `EventStore.add`

The body of `add` is one `with self._lock:` block; the in-memory
mutation, the id assignment **and** the call to `_append_to_disk` all
happen before the block exits, so the durable write runs while the lock
is held.  (`_append_to_disk` returns immediately when no persist path is
configured.) -/

inductive AddStep where
  | acquireLock
  | mutateMemory
  | durableWrite
  | releaseLock
deriving DecidableEq, Repr

/-- The operations of one `EventStore.add` call, in source order. -/
def addSteps (persistEnabled : Bool) : List AddStep :=
  [.acquireLock, .mutateMemory] ++
    (if persistEnabled then [.durableWrite] else []) ++ [.releaseLock]

example :
    validate_event 1000
      [("ts", .int 5), ("trader_id", .str "t"), ("action", .str "open_buy"),
       ("symbol", .str "EURUSD"), ("volume", .float 1), ("sl", .float 0),
       ("tp", .float 0), ("position_id", .int 0), ("deal_ticket", .int 0),
       ("order_ticket", .int 0), ("magic", .int 0), ("comment", .str "")] =
    .ok
      [("ts", .int 5), ("trader_id", .str "t"), ("action", .str "OPEN_BUY"),
       ("symbol", .str "EURUSD"), ("volume", .float 1), ("sl", .float 0),
       ("tp", .float 0), ("position_id", .int 0), ("deal_ticket", .int 0),
       ("order_ticket", .int 0), ("magic", .int 0), ("comment", .str "")] := by rfl

example :
    validate_event 1000
      [("ts", .int 5), ("trader_id", .str "t"), ("action", .str "TELEPORT"),
       ("symbol", .str "X"), ("volume", .float 1), ("sl", .float 0),
       ("tp", .float 0), ("position_id", .int 0), ("deal_ticket", .int 0),
       ("order_ticket", .int 0), ("magic", .int 0), ("comment", .str "")] =
    .error (.unsupportedAction "TELEPORT") := by rfl

example :
    require_token_flexible ["T1"] "Bearer T1" "" = .handler := by rfl
example :
    require_token_flexible ["T1"] "" "" = .err401 := by rfl
example :
    require_token_flexible ["T1"] "Bearer NOPE" "" = .err403 := by rfl
example :
    require_token_flexible ["T1"] "" "T1" = .handler := by rfl
example : addSteps true = [.acquireLock, .mutateMemory, .durableWrite, .releaseLock] := by rfl

/-!  ## The sort keys used by the read models -/

/-- The integer the store reads from a record's `id` field (`0` when the
record has none); meaningful when `keyIntM` succeeds. -/
def idD (e : Dict) : Int := (keyIntM e "id").getD 0

/-- The integer the store reads from a record's `seq` field (`0` when the
record has none). -/
def seqD (e : Dict) : Int := (keyIntM e "seq").getD 0

/-!  ## The records built by iterated appends -/

/-- The records `addAll` appends: the `j`-th input event becomes
`mkStored now (base + 1 + j)`. -/
def storedRecs (now base : Int) : List Dict → List Dict
  | [] => []
  | e :: es => mkStored now (base + 1) e :: storedRecs now (base + 1) es

/-- The records of a list carry consecutive store-readable ids
`base + 1, base + 2, ...`. -/
def ConsecIds (base : Int) : List Dict → Prop
  | [] => True
  | r :: rs => keyIntM r "id" = some (base + 1) ∧ ConsecIds (base + 1) rs

/-- The annotation `since` computes for a consecutively-numbered list. -/
def annIds (base : Int) : List Dict → List (Int × Dict)
  | [] => []
  | r :: rs => (base + 1, r) :: annIds (base + 1) rs

/-!  ## Lemmas about the stable sort -/

theorem insLt_perm (lt : α → α → Bool) (x : α) (l : List α) :
    (insLt lt x l).Perm (x :: l) := by
  induction l with
  | nil => simp [insLt]
  | cons y ys ih =>
      by_cases h : lt y x = true
      · simp only [insLt, h, if_true]
        exact ((ih.cons y).trans (List.Perm.swap x y ys))
      · simp [insLt, h]

theorem isort_perm (lt : α → α → Bool) (l : List α) :
    (isort lt l).Perm l := by
  induction l with
  | nil => simp [isort]
  | cons x xs ih =>
      exact (insLt_perm lt x (isort lt xs)).trans (ih.cons x)

theorem insLt_pairwise (lt : α → α → Bool)
    (hasymm : ∀ a b, lt a b = true → lt b a = false)
    (hneg : ∀ a b c, lt b a = false → lt c b = false → lt c a = false)
    (x : α) (l : List α) (h : l.Pairwise (fun a b => lt b a = false)) :
    (insLt lt x l).Pairwise (fun a b => lt b a = false) := by
  induction l with
  | nil => simp [insLt]
  | cons y ys ih =>
      rcases List.pairwise_cons.mp h with ⟨hy, hys⟩
      by_cases hxy : lt y x = true
      · simp only [insLt, hxy, if_true]
        refine List.pairwise_cons.mpr ⟨?_, ih hys⟩
        intro z hz
        rcases List.mem_cons.mp ((insLt_perm lt x ys).mem_iff.mp hz) with hz' | hz'
        · subst hz'; exact hasymm y z hxy
        · exact hy z hz'
      · simp only [insLt, hxy, if_false]
        refine List.pairwise_cons.mpr ⟨?_, h⟩
        intro z hz
        rcases List.mem_cons.mp hz with hz' | hz'
        · subst hz'
          exact Bool.eq_false_iff.mpr hxy
        · exact hneg x y z (Bool.eq_false_iff.mpr hxy) (hy z hz')

theorem isort_pairwise (lt : α → α → Bool)
    (hasymm : ∀ a b, lt a b = true → lt b a = false)
    (hneg : ∀ a b c, lt b a = false → lt c b = false → lt c a = false)
    (l : List α) :
    (isort lt l).Pairwise (fun a b => lt b a = false) := by
  induction l with
  | nil => simp [isort]
  | cons x xs ih => exact insLt_pairwise lt hasymm hneg x (isort lt xs) ih

theorem insLt_eq_cons (lt : α → α → Bool) (x : α) (l : List α)
    (h : ∀ y, l.head? = some y → lt y x = false) :
    insLt lt x l = x :: l := by
  cases l with
  | nil => rfl
  | cons y ys => simp [insLt, h y rfl]

theorem isort_eq_self (lt : α → α → Bool) (l : List α)
    (h : l.Pairwise (fun a b => lt b a = false)) :
    isort lt l = l := by
  induction l with
  | nil => rfl
  | cons x xs ih =>
      rcases List.pairwise_cons.mp h with ⟨hx, hxs⟩
      rw [isort, ih hxs]
      refine insLt_eq_cons lt x xs (fun y hy => ?_)
      exact hx y (by cases xs <;> simp_all)

/-!  ## Lemmas about `mapM` in the `Option` monad -/

theorem mapO_eq_some_map (f : α → Option β) (g : α → β) (l : List α)
    (h : ∀ a ∈ l, f a = some (g a)) :
    mapO f l = some (l.map g) := by
  induction l with
  | nil => rfl
  | cons a as ih =>
      have ha := h a (List.mem_cons_self a as)
      have has := ih (fun b hb => h b (List.mem_cons_of_mem a hb))
      simp [mapO, ha, has]

/-!  ## Lemmas about dict operations -/

theorem dGet?_dSet_self (d : Dict) (k : String) (v : PyVal) :
    dGet? (dSet d k v) k = some v := by
  induction d with
  | nil => simp [dSet, dGet?]
  | cons p ps ih =>
      by_cases h : p.1 = k
      · simp [dSet, dGet?, h]
      · simp [dSet, dGet?, h, ih]

theorem dGet?_dSet_ne (d : Dict) (k k' : String) (v : PyVal) (h : k' ≠ k) :
    dGet? (dSet d k v) k' = dGet? d k' := by
  have hk : ¬ (k = k') := fun hkk => h hkk.symm
  induction d with
  | nil => simp [dSet, dGet?, hk]
  | cons p ps ih =>
      by_cases hp : p.1 = k
      · simp [dSet, dGet?, hp, hk]
      · by_cases hp' : p.1 = k'
        · simp [dSet, dGet?, hp, hp', hk, h]
        · simp [dSet, dGet?, hp, hp', ih]

theorem dGet?_append_single_ne (d : Dict) (k k' : String) (v : PyVal) (h : k' ≠ k) :
    dGet? (d ++ [(k, v)]) k' = dGet? d k' := by
  have hk : ¬ (k = k') := fun hkk => h hkk.symm
  induction d with
  | nil => simp [dGet?, hk]
  | cons p ps ih =>
      by_cases hp : p.1 = k'
      · simp [dGet?, hp]
      · simp [dGet?, hp, ih]

theorem dGet?_dSetDefault_ne (d : Dict) (k k' : String) (v : PyVal) (h : k' ≠ k) :
    dGet? (dSetDefault d k v) k' = dGet? d k' := by
  unfold dSetDefault
  by_cases hd : dHas d k = true
  · simp [hd]
  · simp [hd, dGet?_append_single_ne d k k' v h]

theorem isSome_eq_some_getD (o : Option α) (d : α) (h : o.isSome = true) :
    o = some (o.getD d) := by
  cases o <;> simp_all

theorem idLt_asymm (a b : Int × Dict) : idLt a b = true → idLt b a = false := by
  simp only [idLt, decide_eq_true_eq, decide_eq_false_iff_not]
  omega

theorem idLt_negtrans (a b c : Int × Dict) :
    idLt b a = false → idLt c b = false → idLt c a = false := by
  simp only [idLt, decide_eq_false_iff_not]
  omega

theorem seqIdLt_asymm (a b : (Int × Int) × Dict) :
    seqIdLt a b = true → seqIdLt b a = false := by
  simp only [seqIdLt, Bool.or_eq_true, Bool.and_eq_true, decide_eq_true_eq, beq_iff_eq,
    Bool.or_eq_false_iff, Bool.and_eq_false_iff, decide_eq_false_iff_not, beq_eq_false_iff_ne,
    ne_eq]
  omega

theorem seqIdLt_negtrans (a b c : (Int × Int) × Dict) :
    seqIdLt b a = false → seqIdLt c b = false → seqIdLt c a = false := by
  simp only [seqIdLt, Bool.or_eq_false_iff, Bool.and_eq_false_iff, decide_eq_false_iff_not,
    beq_eq_false_iff_ne, ne_eq]
  omega

/-- A record with no `seq` field reads as `seq = 0`. -/
theorem keyIntM_of_absent (e : Dict) (k : String) (h : dHas e k = false) :
    keyIntM e k = some 0 := by
  have : dGet? e k = Option.none := by
    rcases hv : dGet? e k with _ | w
    · rfl
    · simp [dHas, hv] at h
  simp [keyIntM, dGetD, this, pyTruthy, pyIntCoe]

/-!  ## Exact characterization of the two read models -/

theorem since_eq (s : Store) (k : Int)
    (h : ∀ e ∈ s.events, (keyIntM e "id").isSome = true) :
    ∃ l, s.since k = some l ∧
      l.Perm (if k ≤ 0 then s.events else s.events.filter (fun e => decide (k < idD e))) ∧
      l.Pairwise (fun a b => idD a ≤ idD b) := by
  have hmap : mapO (fun e => (keyIntM e "id").map (fun i => (i, e))) s.events
      = some (s.events.map (fun e => (idD e, e))) := by
    refine mapO_eq_some_map _ _ _ (fun e he => ?_)
    rcases hk : keyIntM e "id" with _ | i
    · exact absurd (h e he) (by simp [hk])
    · simp [idD, hk]
  set g : Dict → Int × Dict := fun e => (idD e, e) with hg
  set kept := if k ≤ 0 then s.events.map g
    else (s.events.map g).filter (fun p => decide (k < p.1)) with hkept
  have hsince : s.since k = some ((isort idLt kept).map (fun p => p.2)) := by
    simp only [Store.since, hmap, Option.bind_some, hkept]
    rfl
  refine ⟨_, hsince, ?_, ?_⟩
  · have hperm : ((isort idLt kept).map (fun p => p.2)).Perm (kept.map (fun p => p.2)) :=
      (isort_perm idLt kept).map _
    refine hperm.trans ?_
    by_cases hk0 : k ≤ 0
    · simp only [hkept, if_pos hk0, List.map_map]
      have : ((fun p : Int × Dict => p.2) ∘ g) = id := rfl
      rw [this, List.map_id]
    · simp only [hkept, if_neg hk0, if_neg hk0, List.filter_map, List.map_map]
      have : ((fun p : Int × Dict => p.2) ∘ g) = id := rfl
      rw [this, List.map_id]
      have : ((fun p : Int × Dict => decide (k < p.1)) ∘ g) =
          (fun e => decide (k < idD e)) := rfl
      rw [this]
  · have hkey : ∀ p ∈ kept, p.1 = idD p.2 := by
      intro p hp
      rw [hkept] at hp
      have hp' : p ∈ s.events.map g := by
        by_cases hk0 : k ≤ 0
        · rw [if_pos hk0] at hp
          exact hp
        · rw [if_neg hk0] at hp
          exact List.mem_of_mem_filter hp
      rcases List.mem_map.mp hp' with ⟨e, _, hge⟩
      rw [← hge]
    have hpw := isort_pairwise idLt idLt_asymm idLt_negtrans kept
    have hmem : ∀ p ∈ isort idLt kept, p.1 = idD p.2 :=
      fun p hp => hkey p ((isort_perm idLt kept).mem_iff.mp hp)
    have hpw2 : (isort idLt kept).Pairwise (fun a b => idD a.2 ≤ idD b.2) := by
      refine List.Pairwise.imp_of_mem (fun {a b} ha hb hr => ?_) hpw
      have ha' := hmem a ha
      have hb' := hmem b hb
      simp only [idLt, decide_eq_false_iff_not, not_lt] at hr
      rw [← ha', ← hb']
      exact hr
    exact List.pairwise_map.mpr hpw2

theorem since_seq_eq (s : Store) (K : String) (n : Int)
    (h : ∀ e ∈ s.events, (keyIntM e "seq").isSome = true ∧ (keyIntM e "id").isSome = true)
    (hK : pyStrip K ≠ "") :
    ∃ l, s.since_seq K n = some l ∧
      l.Perm (s.events.filter (fun e =>
        decide (n < seqD e) && (dGet? e "trader_key" == some (.str (pyStrip K))))) ∧
      l.Pairwise (fun a b => seqD a < seqD b ∨ (seqD a = seqD b ∧ idD a ≤ idD b)) := by
  set tk := pyStrip K with htk
  set keyp : Dict → Bool := fun e => dGet? e "trader_key" == some (.str tk) with hkeyp
  set mine := s.events.filter keyp with hmine
  have hsub : ∀ e ∈ mine, e ∈ s.events := fun e he => List.mem_of_mem_filter he
  have hmap1 : mapO (fun e => (keyIntM e "seq").map (fun m => (m, e))) mine
      = some (mine.map (fun e => (seqD e, e))) := by
    refine mapO_eq_some_map _ _ _ (fun e he => ?_)
    rcases hk : keyIntM e "seq" with _ | m
    · exact absurd (h e (hsub e he)).1 (by simp [hk])
    · simp [seqD, hk]
  set gS : Dict → Int × Dict := fun e => (seqD e, e) with hgS
  set out := (mine.map gS).filter (fun p => decide (n < p.1)) with hout
  have hout2 : out = (mine.filter (fun e => decide (n < seqD e))).map gS := by
    rw [hout, List.filter_map]
    rfl
  set M := mine.filter (fun e => decide (n < seqD e)) with hM
  have hmap2 : mapO (fun p : Int × Dict => (keyIntM p.2 "id").map (fun i => ((p.1, i), p.2))) out
      = some (out.map (fun p => ((p.1, idD p.2), p.2))) := by
    refine mapO_eq_some_map _ _ _ (fun p hp => ?_)
    have hp2 : p.2 ∈ s.events := by
      rw [hout2, hM] at hp
      rcases List.mem_map.mp hp with ⟨e, he, hge⟩
      rw [← hge]
      exact hsub e (List.mem_of_mem_filter he)
    rcases hk : keyIntM p.2 "id" with _ | i
    · exact absurd (h p.2 hp2).2 (by simp [hk])
    · simp [idD, hk]
  set keyed := out.map (fun p => ((p.1, idD p.2), p.2)) with hkeyed
  have hkeyed2 : keyed = M.map (fun e => ((seqD e, idD e), e)) := by
    rw [hkeyed, hout2, List.map_map]
    rfl
  have hss : s.since_seq K n = some ((isort seqIdLt keyed).map (fun p => p.2)) := by
    have hstep : s.since_seq K n =
        (mapO (fun e => (keyIntM e "seq").map (fun m => (m, e))) mine).bind
          (fun seqd =>
            (mapO (fun p : Int × Dict =>
                (keyIntM p.2 "id").map (fun i => ((p.1, i), p.2)))
                (seqd.filter (fun p => decide (n < p.1)))).bind
              (fun keyed => some ((isort seqIdLt keyed).map (fun p => p.2)))) := by
      simp only [Store.since_seq, ← htk, if_neg hK, ← hkeyp, ← hmine]
      rfl
    rw [hstep, hmap1, Option.some_bind, ← hout, hmap2, Option.some_bind]
  refine ⟨_, hss, ?_, ?_⟩
  · have hperm : ((isort seqIdLt keyed).map (fun p => p.2)).Perm (keyed.map (fun p => p.2)) :=
      (isort_perm seqIdLt keyed).map _
    refine hperm.trans ?_
    rw [hkeyed2, List.map_map]
    have : ((fun p : (Int × Int) × Dict => p.2) ∘ (fun e => ((seqD e, idD e), e))) = id := rfl
    rw [this, List.map_id, hM, hmine, List.filter_filter]
  · have hkey : ∀ p ∈ keyed, p.1 = (seqD p.2, idD p.2) := by
      intro p hp
      rw [hkeyed2] at hp
      rcases List.mem_map.mp hp with ⟨e, _, hge⟩
      rw [← hge]
    have hpw := isort_pairwise seqIdLt seqIdLt_asymm seqIdLt_negtrans keyed
    have hmem : ∀ p ∈ isort seqIdLt keyed, p.1 = (seqD p.2, idD p.2) :=
      fun p hp => hkey p ((isort_perm seqIdLt keyed).mem_iff.mp hp)
    have hpw2 : (isort seqIdLt keyed).Pairwise
        (fun a b => seqD a.2 < seqD b.2 ∨ (seqD a.2 = seqD b.2 ∧ idD a.2 ≤ idD b.2)) := by
      refine List.Pairwise.imp_of_mem (fun {a b} ha hb hr => ?_) hpw
      have ha' := hmem a ha
      have hb' := hmem b hb
      simp only [seqIdLt, Bool.or_eq_false_iff, Bool.and_eq_false_iff,
        decide_eq_false_iff_not, beq_eq_false_iff_ne, ne_eq] at hr
      have ha1 : a.1.1 = seqD a.2 := by rw [ha']
      have ha2 : a.1.2 = idD a.2 := by rw [ha']
      have hb1 : b.1.1 = seqD b.2 := by rw [hb']
      have hb2 : b.1.2 = idD b.2 := by rw [hb']
      rw [← ha1, ← ha2, ← hb1, ← hb2]
      omega
    exact List.pairwise_map.mpr hpw2

theorem dGet?_dSetDefault_self (d : Dict) (k : String) (v : PyVal) :
    dGet? (dSetDefault d k v) k = some ((dGet? d k).getD v) := by
  unfold dSetDefault
  by_cases hd : dHas d k = true
  · rcases Option.isSome_iff_exists.mp hd with ⟨w, hw⟩
    simp [hd, hw]
  · have hnone : dGet? d k = Option.none := by
      rcases hv : dGet? d k with _ | w
      · rfl
      · exact absurd (by simp [dHas, hv]) hd
    have : dGet? (d ++ [(k, v)]) k = some v := by
      induction d with
      | nil => simp [dGet?]
      | cons p ps ih =>
          by_cases hp : p.1 = k
          · exact absurd (by simp [dHas, dGet?, hp]) hd
          · simp only [dGet?, hp, if_false] at hnone ⊢
            exact ih (by simp [dHas, hnone]) hnone
    simp [hd, hnone, this]

theorem mkStored_id (now i : Int) (evt : Dict) :
    dGet? (mkStored now i evt) "id" = some (.int i) := by
  unfold mkStored
  rw [dGet?_dSet_ne _ _ _ _ (by decide), dGet?_dSet_self]

theorem keyIntM_mkStored_id (now i : Int) (evt : Dict) :
    keyIntM (mkStored now i evt) "id" = some i := by
  by_cases h : i = 0 <;>
    simp [keyIntM, dGetD, mkStored_id, pyTruthy, pyIntCoe, h]

theorem storedRecs_consec (now : Int) (evts : List Dict) (base : Int) :
    ConsecIds base (storedRecs now base evts) := by
  induction evts generalizing base with
  | nil => trivial
  | cons e es ih => exact ⟨keyIntM_mkStored_id now (base + 1) e, ih (base + 1)⟩

theorem range_shift (g : ℕ → α) (n : ℕ) :
    (List.range (n + 1)).map g = g 0 :: (List.range n).map (fun j => g (j + 1)) := by
  rw [List.range_succ_eq_map, List.map_cons, List.map_map]
  rfl

theorem addAll_spec (now : Int) (evts : List Dict) (s : Store) :
    (s.addAll now evts).1.events = s.events ++ storedRecs now s.lastId evts ∧
    (s.addAll now evts).1.lastId = s.lastId + evts.length ∧
    (s.addAll now evts).2.1 =
      (List.range evts.length).map (fun j : ℕ => s.lastId + 1 + (j : Int)) ∧
    (s.addAll now evts).2.2 = (storedRecs now s.lastId evts).map DiskLine.jsonDict := by
  induction evts generalizing s with
  | nil => simp [Store.addAll, storedRecs]
  | cons e es ih =>
      obtain ⟨h1, h2, h3, h4⟩ := ih ⟨s.events ++ [mkStored now (s.lastId + 1) e], s.lastId + 1⟩
      refine ⟨?_, ?_, ?_, ?_⟩
      · simp only [Store.addAll, Store.add, h1, storedRecs, List.append_assoc,
          List.singleton_append]
      · simp only [Store.addAll, Store.add, h2, List.length_cons]
        push_cast
        ring
      · simp only [Store.addAll, Store.add, h3, List.length_cons, range_shift]
        refine congrArg₂ _ (by push_cast; ring) ?_
        refine List.map_congr_left (fun j _ => ?_)
        push_cast
        ring
      · simp only [Store.addAll, Store.add, h4, storedRecs, List.map_cons,
          List.singleton_append]

theorem consec_mapO (R : List Dict) (base : Int) (h : ConsecIds base R) :
    mapO (fun e => (keyIntM e "id").map (fun i => (i, e))) R = some (annIds base R) := by
  induction R generalizing base with
  | nil => rfl
  | cons r rs ih =>
      obtain ⟨h1, h2⟩ := h
      simp [mapO, h1, ih (base + 1) h2, annIds]

theorem annIds_key_ge (base : Int) (R : List Dict) :
    ∀ p ∈ annIds base R, base + 1 ≤ p.1 := by
  induction R generalizing base with
  | nil => intro p hp; cases hp
  | cons r rs ih =>
      intro p hp
      rcases List.mem_cons.mp hp with hp' | hp'
      · subst hp'; simp
      · have := ih (base + 1) p hp'
        omega

theorem annIds_pairwise_lt (base : Int) (R : List Dict) :
    (annIds base R).Pairwise (fun a b => a.1 < b.1) := by
  induction R generalizing base with
  | nil => exact List.Pairwise.nil
  | cons r rs ih =>
      refine List.pairwise_cons.mpr ⟨fun p hp => ?_, ih (base + 1)⟩
      have := annIds_key_ge (base + 1) rs p hp
      simp only
      omega

theorem annIds_map_snd (base : Int) (R : List Dict) :
    (annIds base R).map (fun p => p.2) = R := by
  induction R generalizing base with
  | nil => rfl
  | cons r rs ih => simp [annIds, ih (base + 1)]

theorem isort_annIds (base : Int) (R : List Dict) :
    isort idLt (annIds base R) = annIds base R := by
  refine isort_eq_self idLt _ ?_
  refine (annIds_pairwise_lt base R).imp (fun hab => ?_)
  simp only [idLt, decide_eq_false_iff_not]
  omega

theorem annIds_filter_gt (R : List Dict) (base : Int) (m : ℕ) :
    (annIds base R).filter (fun p => decide (base + (m : Int) < p.1)) =
      annIds (base + (m : Int)) (R.drop m) := by
  induction R generalizing base m with
  | nil => simp [annIds]
  | cons r rs ih =>
      cases m with
      | zero =>
          simp only [Nat.cast_zero, add_zero, List.drop_zero]
          rw [annIds, List.filter_cons]
          have hkeep : decide (base < base + 1) = true := by simp
          rw [if_pos hkeep]
          congr 1
          refine List.filter_eq_self.mpr (fun p hp => ?_)
          have := annIds_key_ge (base + 1) rs p hp
          simp only [decide_eq_true_eq]
          omega
      | succ m' =>
          rw [annIds, List.filter_cons]
          have hdrop : ¬ (decide (base + ((m' + 1 : ℕ) : Int) < base + 1) = true) := by
            simp only [decide_eq_true_eq]
            push_cast
            omega
          rw [if_neg hdrop]
          have harith : ∀ x : Int, (base + ((m' + 1 : ℕ) : Int) < x) =
              ((base + 1) + (m' : ℕ) < x) := by
            intro x
            have : base + ((m' + 1 : ℕ) : Int) = (base + 1) + (m' : ℕ) := by
              push_cast
              ring
            rw [this]
          simp only [harith]
          rw [ih (base + 1) m']
          have : (base + 1) + ((m' : ℕ) : Int) = base + ((m' + 1 : ℕ) : Int) := by
            push_cast
            ring
          rw [this]
          rfl

/-- `since` on a store whose records carry ids `1..N` in order: the
watermark `j` drops exactly the first `j` records. -/
theorem since_drop (R : List Dict) (lastId : Int) (h : ConsecIds 0 R) (j : ℕ) :
    (Store.mk R lastId).since (j : Int) = some (R.drop j) := by
  have hmap := consec_mapO R 0 h
  have hbody : (Store.mk R lastId).since (j : Int) =
      some ((isort idLt (if (j : Int) ≤ 0 then annIds 0 R
        else (annIds 0 R).filter (fun p => decide ((j : Int) < p.1)))).map
          (fun p => p.2)) := by
    simp only [Store.since, hmap, Option.some_bind]
    rfl
  rw [hbody]
  cases j with
  | zero =>
      rw [if_pos (by omega : ((0 : ℕ) : Int) ≤ 0), isort_annIds, annIds_map_snd]
      simp
  | succ j' =>
      rw [if_neg (by push_cast; omega : ¬ (((j' + 1 : ℕ)) : Int) ≤ 0)]
      have hfe : (fun p : Int × Dict => decide ((((j' + 1 : ℕ)) : Int) < p.1)) =
          (fun p : Int × Dict => decide ((0 : Int) + (((j' + 1 : ℕ)) : Int) < p.1)) := by
        funext p
        rw [zero_add]
      rw [hfe, annIds_filter_gt R 0 (j' + 1), zero_add, isort_annIds, annIds_map_snd]

/-!  ## Recovery lemmas -/

theorem foldl_loadStep_events (lines : List DiskLine) (acc : List Dict × Int) :
    (lines.foldl loadStep acc).1 = acc.1 ++ lines.filterMap recOf := by
  induction lines generalizing acc with
  | nil => simp
  | cons l ls ih =>
      rcases hr : recOf l with _ | d
      · have hstep : loadStep acc l = acc := by simp [loadStep, hr]
        simp [List.foldl_cons, hstep, ih, List.filterMap_cons, hr]
      · have hstep : (loadStep acc l).1 = acc.1 ++ [d] := by simp [loadStep, hr]
        have hstep2 : loadStep acc l = (acc.1 ++ [d], (loadStep acc l).2) := by
          rw [← hstep]
        rw [List.foldl_cons, hstep2, ih, List.filterMap_cons, hr]
        simp

theorem foldl_loadStep_last (lines : List DiskLine) (acc : List Dict × Int)
    (h : ∀ d ∈ lines.filterMap recOf, (keyIntM d "id").isSome = true) :
    (lines.foldl loadStep acc).2 =
      (lines.filterMap recOf).foldl (fun a d => max a (idD d)) acc.2 := by
  induction lines generalizing acc with
  | nil => simp
  | cons l ls ih =>
      rcases hr : recOf l with _ | d
      · have hstep : loadStep acc l = acc := by simp [loadStep, hr]
        have hls : ∀ d ∈ ls.filterMap recOf, (keyIntM d "id").isSome = true := by
          intro d hd
          exact h d (by simp [List.filterMap_cons, hr, hd])
        simp [List.foldl_cons, hstep, ih _ hls, List.filterMap_cons, hr]
      · have hd : (keyIntM d "id").isSome = true :=
          h d (by simp [List.filterMap_cons, hr])
        rcases hk : keyIntM d "id" with _ | i
        · rw [hk] at hd; cases hd
        · have hstep : loadStep acc l = (acc.1 ++ [d], max acc.2 i) := by
            simp [loadStep, hr, hk]
          have hls : ∀ e ∈ ls.filterMap recOf, (keyIntM e "id").isSome = true := by
            intro e he
            exact h e (by simp [List.filterMap_cons, hr, he])
          rw [List.foldl_cons, hstep, ih _ hls, List.filterMap_cons, hr]
          have hidd : idD d = i := by simp [idD, hk]
          simp [hidd]

theorem consec_foldl_max (R : List Dict) (base : Int) (h : ConsecIds base R) :
    R.foldl (fun a d => max a (idD d)) base = base + R.length := by
  induction R generalizing base with
  | nil => simp
  | cons r rs ih =>
      obtain ⟨h1, h2⟩ := h
      have hid : idD r = base + 1 := by simp [idD, h1]
      have hmax : max base (idD r) = base + 1 := by
        rw [hid]
        omega
      rw [List.foldl_cons, hmax, ih (base + 1) h2, List.length_cons]
      push_cast
      ring

theorem consec_isSome (R : List Dict) (base : Int) (h : ConsecIds base R) :
    ∀ d ∈ R, (keyIntM d "id").isSome = true := by
  induction R generalizing base with
  | nil => intro d hd; cases hd
  | cons r rs ih =>
      obtain ⟨h1, h2⟩ := h
      intro d hd
      rcases List.mem_cons.mp hd with hd' | hd'
      · subst hd'; simp [h1]
      · exact ih (base + 1) h2 d hd'

/-- Loading a log whose object lines are exactly a consecutively-numbered
record list recovers that list and sets the counter to its length. -/
theorem ofDisk_of_consec (lines : List DiskLine) (R : List Dict)
    (hR : lines.filterMap recOf = R) (h : ConsecIds 0 R) :
    Store.ofDisk lines = Store.mk R R.length := by
  have hev : (lines.foldl loadStep ([], 0)).1 = R := by
    rw [foldl_loadStep_events]
    simpa using hR
  have hlast : (lines.foldl loadStep ([], 0)).2 = (R.length : Int) := by
    rw [foldl_loadStep_last lines ([], 0) (by rw [hR]; exact consec_isSome R 0 h)]
    rw [hR]
    have := consec_foldl_max R 0 h
    simpa using this
  have hpair : lines.foldl loadStep ([], 0) = (R, (R.length : Int)) := by
    rcases hfl : lines.foldl loadStep ([], 0) with ⟨a, b⟩
    rw [hfl] at hev hlast
    simp_all
  unfold Store.ofDisk loadFromDisk
  rw [hpair]
  simp only [consec_mapO R 0 h, isort_annIds, annIds_map_snd]

theorem storedRecs_length (now base : Int) (evts : List Dict) :
    (storedRecs now base evts).length = evts.length := by
  induction evts generalizing base with
  | nil => rfl
  | cons e es ih => simp [storedRecs, ih (base + 1)]

theorem storedRecs_map_id (now base : Int) (evts : List Dict) :
    (storedRecs now base evts).map (fun r => dGet? r "id") =
      ((List.range evts.length).map (fun j : ℕ => base + 1 + (j : Int))).map
        (fun i => some (PyVal.int i)) := by
  induction evts generalizing base with
  | nil => rfl
  | cons e es ih =>
      simp only [storedRecs, List.map_cons, mkStored_id, List.length_cons, range_shift,
        List.map_map, ih (base + 1)]
      refine congrArg₂ _ (by norm_num) ?_
      refine List.map_congr_left (fun j _ => ?_)
      simp only [Function.comp_apply]
      have hj : base + 1 + 1 + (j : Int) = base + 1 + ((j + 1 : ℕ) : Int) := by
        push_cast
        ring
      rw [hj]

theorem loadFromDisk_snd (lines : List DiskLine) :
    (loadFromDisk lines).2 = (lines.foldl loadStep ([], 0)).2 := by
  unfold loadFromDisk
  rcases hm : mapO (fun e => (keyIntM e "id").map (fun i => (i, e)))
      (lines.foldl loadStep ([], 0)).1 with _ | keyed <;> simp [hm]

theorem filterMap_recOf_jsonDict (R : List Dict) :
    (R.map DiskLine.jsonDict).filterMap recOf = R := by
  induction R with
  | nil => rfl
  | cons r rs ih => simp [List.filterMap_cons, recOf, ih]

theorem store_ext (a b : Store) (h1 : a.events = b.events) (h2 : a.lastId = b.lastId) :
    a = b := by
  cases a; cases b; simp_all

/-- C1.  For every starting store state, a sequence of `add` calls
returns the consecutive ids `lastId+1, lastId+2, ...` — strictly
increasing, gap-free and repeat-free, starting at `1` when the store
began empty (`Store.empty.lastId = 0`) and at one more than the maximum
id recovered from disk after a restart (last conjunct); the `id` field
written into each appended record is exactly the returned id
(`mkStored` overwrites any caller-supplied `id`). -/
theorem c1_add_ids_consecutive (s : Store) (now : Int) (evts : List Dict) :
    (s.addAll now evts).2.1 =
      (List.range evts.length).map (fun j : ℕ => s.lastId + 1 + (j : Int)) ∧
    Store.empty.lastId = 0 ∧
    ((s.addAll now evts).1.events.drop s.events.length).map (fun r => dGet? r "id") =
      (s.addAll now evts).2.1.map (fun i => some (PyVal.int i)) ∧
    (∀ (i : Int) (e : Dict), dGet? (mkStored now i e) "id" = some (.int i)) ∧
    (∀ lines : List DiskLine,
      (∀ d ∈ lines.filterMap recOf, (keyIntM d "id").isSome = true) →
      (Store.ofDisk lines).lastId =
        (lines.filterMap recOf).foldl (fun a d => max a (idD d)) 0) := by
  obtain ⟨h1, _, h3, _⟩ := addAll_spec now evts s
  refine ⟨h3, rfl, ?_, fun i e => mkStored_id now i e, fun lines hl => ?_⟩
  · rw [h1, List.drop_left, h3, storedRecs_map_id, List.map_map]
  · show (loadFromDisk lines).2 = _
    rw [loadFromDisk_snd, foldl_loadStep_last lines ([], 0) hl]

/-- C1 witness: three appends to an empty store (the third input already
carrying an `id` field, which is overwritten) return ids 1, 2, 3; a store
recovered from a log whose only object line has id 2 restores the
counter to 2, and its next `add` returns 3. -/
theorem c1_witness :
    (Store.empty.addAll 50 [[("a", .int 1)], [], [("id", .int 99)]]).2.1 = [1, 2, 3] ∧
    ((Store.empty.addAll 50 [[("a", .int 1)], [], [("id", .int 99)]]).1.events.drop 0).map
        (fun r => dGet? r "id") = [some (.int 1), some (.int 2), some (.int 3)] ∧
    (Store.ofDisk [.jsonDict [("id", .int 2)], .blank]).lastId = 2 ∧
    ((Store.ofDisk [.jsonDict [("id", .int 2)], .blank]).add 60 []).2.1 = 3 := by
  obtain ⟨ha, _, hb, _, hc⟩ := c1_add_ids_consecutive Store.empty 50
    [[("a", .int 1)], [], [("id", .int 99)]]
  refine ⟨by rw [ha]; rfl, ?_, ?_, ?_⟩
  · rw [show (0 : ℕ) = (Store.empty.events.length) from rfl, hb, ha]
    rfl
  · rw [hc [.jsonDict [("id", .int 2)], .blank] (by decide)]
    rfl
  · show (Store.ofDisk [.jsonDict [("id", .int 2)], .blank]).lastId + 1 = 3
    rw [hc [.jsonDict [("id", .int 2)], .blank] (by decide)]
    rfl

/-- C3.  `since` returns exactly the records with `id > k` (all records
when `k ≤ 0`), sorted ascending by id, for any store whose records carry
coercible ids; and on a store built by appends, `since j` returns
exactly the records appended after the `j`-th — so `since 0` returns
every appended record, in order. -/
theorem c3_since_cursor (s : Store) (k : Int)
    (h : ∀ e ∈ s.events, (keyIntM e "id").isSome = true) :
    (∃ l, s.since k = some l ∧
      l.Perm (if k ≤ 0 then s.events
        else s.events.filter (fun e => decide (k < idD e))) ∧
      l.Pairwise (fun a b => idD a ≤ idD b)) ∧
    (∀ (now : Int) (evts : List Dict) (j : ℕ),
      ((Store.empty.addAll now evts).1).since (j : Int) =
        some (((Store.empty.addAll now evts).1.events).drop j)) := by
  refine ⟨since_eq s k h, fun now evts j => ?_⟩
  obtain ⟨h1, h2, _, _⟩ := addAll_spec now evts Store.empty
  have hconsec : ConsecIds 0 (storedRecs now 0 evts) := storedRecs_consec now evts 0
  have hev : (Store.empty.addAll now evts).1.events = storedRecs now 0 evts := by
    rw [h1]; rfl
  have hstore : (Store.empty.addAll now evts).1 =
      Store.mk (storedRecs now 0 evts) ((Store.empty.addAll now evts).1.lastId) :=
    store_ext _ _ hev rfl
  rw [hstore, since_drop (storedRecs now 0 evts) _ hconsec j]

/-- C3 witness: a three-record store with ids 3, 1, 2; `since 1` keeps
ids 3, 2 (in that stored order filtered) and returns them sorted as 2, 3;
and on an appended store `since 2` returns exactly the records appended
after the second. -/
theorem c3_witness :
    (∃ l, (Store.mk [[("id", .int 3)], [("id", .int 1)], [("id", .int 2)]] 3).since 1
        = some l ∧
      l.Perm ([[("id", .int 3)], [("id", .int 1)], [("id", .int 2)]].filter
        (fun e => decide ((1 : Int) < idD e))) ∧
      l.Pairwise (fun a b => idD a ≤ idD b)) ∧
    ((Store.empty.addAll 7 [[("u", .int 1)], [("u", .int 2)], [("u", .int 3)]]).1).since
        ((2 : ℕ) : Int) =
      some (((Store.empty.addAll 7
        [[("u", .int 1)], [("u", .int 2)], [("u", .int 3)]]).1.events).drop 2) := by
  have h := c3_since_cursor
    (Store.mk [[("id", .int 3)], [("id", .int 1)], [("id", .int 2)]] 3) 1 (by decide)
  exact ⟨by simpa using h.1, h.2 7 [[("u", .int 1)], [("u", .int 2)], [("u", .int 3)]] 2⟩

/-- C4.  Round-trip through the durable log: after appending `N` records
to an empty store with persistence on, rebuilding a store from any log
whose object lines are exactly the lines the appends wrote — blank,
unparseable, and non-object lines may appear anywhere and are skipped
individually — recovers the identical store: `since 0` yields the same
`N` records with the same ids in ascending order, and the next `add`
returns `N + 1`. -/
theorem c4_roundtrip (now : Int) (evts : List Dict) (lines : List DiskLine)
    (hlines : lines.filterMap recOf =
      ((Store.empty.addAll now evts).2.2).filterMap recOf) :
    Store.ofDisk lines = (Store.empty.addAll now evts).1 ∧
    (Store.ofDisk lines).since 0 = some ((Store.empty.addAll now evts).1.events) ∧
    (∀ (now2 : Int) (e : Dict),
      ((Store.ofDisk lines).add now2 e).2.1 = (evts.length : Int) + 1) := by
  obtain ⟨h1, h2, _, h4⟩ := addAll_spec now evts Store.empty
  set R := storedRecs now 0 evts with hR
  have hconsec : ConsecIds 0 R := storedRecs_consec now evts 0
  have hev : (Store.empty.addAll now evts).1.events = R := by rw [h1]; rfl
  have hli : (Store.empty.addAll now evts).1.lastId = (evts.length : Int) := by
    rw [h2]
    show (0 : Int) + (evts.length : Int) = (evts.length : Int)
    rw [zero_add]
  have hRlines : lines.filterMap recOf = R := by
    rw [hlines, h4]
    show (R.map DiskLine.jsonDict).filterMap recOf = R
    exact filterMap_recOf_jsonDict R
  have hdisk : Store.ofDisk lines = Store.mk R (R.length : Int) :=
    ofDisk_of_consec lines R hRlines hconsec
  have hlen : (R.length : Int) = (evts.length : Int) := by
    rw [hR, storedRecs_length]
  have heq : Store.ofDisk lines = (Store.empty.addAll now evts).1 := by
    refine store_ext _ _ ?_ ?_
    · rw [hdisk, hev]
    · rw [hdisk, hli]
      exact hlen
  refine ⟨heq, ?_, fun now2 e => ?_⟩
  · have := since_drop R (R.length : Int) hconsec 0
    rw [hdisk]
    rw [hev]
    simpa using this
  · show (Store.ofDisk lines).lastId + 1 = (evts.length : Int) + 1
    rw [hdisk]
    show (R.length : Int) + 1 = _
    rw [hlen]

/-- C4 witness: two appends at time 100, with the log holding the two
written object lines interleaved with a blank line, an unparseable line
and a non-object JSON line; recovery restores both records, `since 0`
returns them, and the next `add` gets id 3. -/
theorem c4_witness :
    Store.ofDisk
        [.blank, .jsonDict [("v", .int 7), ("ts", .int 100), ("id", .int 1),
          ("server_ts", .int 100)], .malformed,
         .jsonDict [("v", .int 8), ("ts", .int 100), ("id", .int 2),
          ("server_ts", .int 100)], .jsonOther] =
      (Store.empty.addAll 100 [[("v", .int 7)], [("v", .int 8)]]).1 ∧
    (Store.ofDisk
        [.blank, .jsonDict [("v", .int 7), ("ts", .int 100), ("id", .int 1),
          ("server_ts", .int 100)], .malformed,
         .jsonDict [("v", .int 8), ("ts", .int 100), ("id", .int 2),
          ("server_ts", .int 100)], .jsonOther]).since 0 =
      some [[("v", .int 7), ("ts", .int 100), ("id", .int 1), ("server_ts", .int 100)],
            [("v", .int 8), ("ts", .int 100), ("id", .int 2), ("server_ts", .int 100)]] ∧
    ((Store.ofDisk
        [.blank, .jsonDict [("v", .int 7), ("ts", .int 100), ("id", .int 1),
          ("server_ts", .int 100)], .malformed,
         .jsonDict [("v", .int 8), ("ts", .int 100), ("id", .int 2),
          ("server_ts", .int 100)], .jsonOther]).add 200 [("v", .int 9)]).2.1 = 3 := by
  obtain ⟨ha, hb, hc⟩ := c4_roundtrip 100 [[("v", .int 7)], [("v", .int 8)]]
    [.blank, .jsonDict [("v", .int 7), ("ts", .int 100), ("id", .int 1),
      ("server_ts", .int 100)], .malformed,
     .jsonDict [("v", .int 8), ("ts", .int 100), ("id", .int 2),
      ("server_ts", .int 100)], .jsonOther] (by decide)
  exact ⟨ha, by rw [hb]; rfl, by rw [hc 200 [("v", .int 9)]]; rfl⟩

/-- C9 counterexample.  The claim asserts the lock is released before
the durable write; in the source the call to `_append_to_disk` sits
inside the `with self._lock:` block, so in the trace of one persisted
`add` the durable write comes strictly before the lock release — the
opposite order. -/
theorem c9_counterexample :
    addSteps true = [.acquireLock, .mutateMemory, .durableWrite, .releaseLock] ∧
    (addSteps true).indexOf AddStep.durableWrite <
      (addSteps true).indexOf AddStep.releaseLock := by
  decide

/-- C9 (amended).  In every persisted append the in-memory mutation and
the durable-log write both happen between lock acquisition and lock
release: the lock IS held across the durable-write I/O; without
persistence the durable write is absent and the trace is acquire,
mutate, release. -/
theorem c9_amended_lock_held_across_write :
    (addSteps true).indexOf AddStep.acquireLock <
      (addSteps true).indexOf AddStep.mutateMemory ∧
    (addSteps true).indexOf AddStep.mutateMemory <
      (addSteps true).indexOf AddStep.durableWrite ∧
    (addSteps true).indexOf AddStep.durableWrite <
      (addSteps true).indexOf AddStep.releaseLock ∧
    addSteps false = [.acquireLock, .mutateMemory, .releaseLock] := by
  decide

/-- C2 counterexample.  The claim says `since_seq(K, n)` returns exactly
the records whose `trader_key` equals `K` with `seq > n`, for every key
`K`.  The code strips `K` first: for `K = " x "` and a stored record
whose key is literally `" x "` (with `seq = 5 > 0`), the claim demands
that record in the result, but the code returns the empty list.  Also,
when a matching record's `seq` is a non-numeric string the call raises
instead of returning a list (modelled as `none`), so the exact-result
reading needs coercible `seq`/`id` fields. -/
theorem c2_counterexample :
    (Store.mk [[("trader_key", .str " x "), ("seq", .int 5), ("id", .int 1)]] 1).since_seq
        " x " 0 = some [] ∧
    dGet? [("trader_key", .str " x "), ("seq", .int 5), ("id", .int 1)] "trader_key" =
      some (.str " x ") ∧
    seqD [("trader_key", .str " x "), ("seq", .int 5), ("id", .int 1)] = 5 ∧
    (Store.mk [[("trader_key", .str "x"), ("seq", .str "zz"), ("id", .int 1)]] 1).since_seq
        "x" 0 = Option.none := by
  refine ⟨by rfl, by rfl, by rfl, by rfl⟩

/-- C2 (amended).  `since_seq` first strips the supplied key; a key that
strips to the empty string yields `[]`.  Otherwise, for every store
state whose records carry int-coercible `seq` and `id` fields (as every
record admitted through validation does), the result is exactly the
records whose `trader_key` equals the **stripped** key and whose `seq`
(0 when the field is absent or falsy) exceeds `n`, sorted ascending by
`(seq, id)`; for `n ≥ 0` every returned record has a `seq` field. -/
theorem c2_amended_since_seq_strips_key (s : Store) (K : String) (n : Int)
    (h : ∀ e ∈ s.events,
      (keyIntM e "seq").isSome = true ∧ (keyIntM e "id").isSome = true) :
    (pyStrip K = "" → s.since_seq K n = some []) ∧
    (pyStrip K ≠ "" → ∃ l, s.since_seq K n = some l ∧
      l.Perm (s.events.filter (fun e =>
        decide (n < seqD e) && (dGet? e "trader_key" == some (.str (pyStrip K))))) ∧
      l.Pairwise (fun a b => seqD a < seqD b ∨ (seqD a = seqD b ∧ idD a ≤ idD b)) ∧
      (0 ≤ n → ∀ e ∈ l, dHas e "seq" = true)) := by
  constructor
  · intro hK
    simp [Store.since_seq, hK]
  · intro hK
    obtain ⟨l, hl, hperm, hpw⟩ := since_seq_eq s K n h hK
    refine ⟨l, hl, hperm, hpw, fun hn e he => ?_⟩
    have hmem := hperm.mem_iff.mp he
    have hpred := (List.mem_filter.mp hmem).2
    rcases hhas : dHas e "seq" with _ | _
    · have hseq0 : seqD e = 0 := by
        simp [seqD, keyIntM_of_absent e "seq" hhas]
      rw [Bool.and_eq_true, decide_eq_true_eq] at hpred
      rw [hseq0] at hpred
      omega
    · rfl

/-- C2 witness: a store with two matching records (ids 2 and 1, seqs 5
and 5), one record under another key, and one matching record without a
`seq` field; `since_seq "x" 0` returns the two seq-5 records ordered by
id, and drops the seq-less record. -/
theorem c2_witness :
    (Store.mk [] 0).since_seq "  " 3 = some [] ∧
    (∃ l, (Store.mk
        [[("trader_key", .str "x"), ("seq", .int 5), ("id", .int 2)],
         [("trader_key", .str "y"), ("seq", .int 9), ("id", .int 3)],
         [("trader_key", .str "x"), ("id", .int 4)],
         [("trader_key", .str "x"), ("seq", .int 5), ("id", .int 1)]] 4).since_seq
        " x" 0 = some l ∧
      l.Perm ([[("trader_key", .str "x"), ("seq", .int 5), ("id", .int 2)],
         [("trader_key", .str "y"), ("seq", .int 9), ("id", .int 3)],
         [("trader_key", .str "x"), ("id", .int 4)],
         [("trader_key", .str "x"), ("seq", .int 5), ("id", .int 1)]].filter
        (fun e => decide ((0 : Int) < seqD e) &&
          (dGet? e "trader_key" == some (.str "x")))) ∧
      l.Pairwise (fun a b => seqD a < seqD b ∨ (seqD a = seqD b ∧ idD a ≤ idD b)) ∧
      ((0 : Int) ≤ 0 → ∀ e ∈ l, dHas e "seq" = true)) := by
  constructor
  · exact (c2_amended_since_seq_strips_key (Store.mk [] 0) "  " 3 (by decide)).1 (by rfl)
  · have h := (c2_amended_since_seq_strips_key (Store.mk
        [[("trader_key", .str "x"), ("seq", .int 5), ("id", .int 2)],
         [("trader_key", .str "y"), ("seq", .int 9), ("id", .int 3)],
         [("trader_key", .str "x"), ("id", .int 4)],
         [("trader_key", .str "x"), ("seq", .int 5), ("id", .int 1)]] 4)
        " x" 0 (by decide)).2 (by decide)
    exact h

/-- C8.  On the protected stream route: when neither the Bearer header
nor the `token` query parameter carries a (non-blank) token, the request
is rejected 401 (`Unauthenticated`); when a token is presented but is
not in the allow-list, it is rejected 403 (`Unauthorized`), a distinct
outcome; when the presented token is in the allow-list, the wrapped
handler runs. -/
theorem c8_token_gate (validTokens : List String) (auth q : String) :
    (presentedToken auth q = "" →
      require_token_flexible validTokens auth q = .err401) ∧
    (presentedToken auth q ≠ "" → presentedToken auth q ∉ validTokens →
      require_token_flexible validTokens auth q = .err403) ∧
    (presentedToken auth q ≠ "" → presentedToken auth q ∈ validTokens →
      require_token_flexible validTokens auth q = .handler) := by
  refine ⟨fun h => ?_, fun h1 h2 => ?_, fun h1 h2 => ?_⟩
  · simp [require_token_flexible, h]
  · have hc : validTokens.contains (presentedToken auth q) = false := by
      refine Bool.eq_false_iff.mpr (fun hct => h2 (List.elem_iff.mp hct))
    simp [require_token_flexible, h1, hc, h2]
  · have hc : validTokens.contains (presentedToken auth q) = true :=
      List.elem_iff.mpr h2
    simp [require_token_flexible, h1, hc, h2]

/-- C8 witness: no credential → 401; unknown Bearer token → 403; listed
token via the query parameter → handler runs. -/
theorem c8_witness :
    require_token_flexible ["T1", "T2"] "" "" = .err401 ∧
    require_token_flexible ["T1", "T2"] "Bearer NOPE" "" = .err403 ∧
    require_token_flexible ["T1", "T2"] "" " T2 " = .handler := by
  refine ⟨(c8_token_gate ["T1", "T2"] "" "").1 (by rfl),
    (c8_token_gate ["T1", "T2"] "Bearer NOPE" "").2.1 (by decide) (by decide),
    (c8_token_gate ["T1", "T2"] "" " T2 ").2.2 (by decide) (by decide)⟩

/-- C10.  On the stream route a watermark that does not parse as an
integer is silently treated as 0: with a non-blank `trader_key` and a
non-empty malformed `since_seq`, the keyed cursor runs as
`since_seq(key, 0)`; on the legacy path a malformed `since` makes the
route run `since 0`, which returns every stored record. -/
theorem c10_malformed_watermark_is_zero (s : Store) (tkArg ssArg sArg : Option String) :
    (pyStrip (tkArg.getD "") ≠ "" → pyStrip (ssArg.getD "") ≠ "" →
      pyIntOfString (pyStrip (ssArg.getD "")) = Option.none →
      stream_ndjson s tkArg ssArg sArg = s.since_seq (pyStrip (tkArg.getD "")) 0) ∧
    ((pyStrip (tkArg.getD "") = "" ∨ pyStrip (ssArg.getD "") = "") →
      pyIntOfString (pyStrip (if sArg.getD "0" = "" then "0" else sArg.getD "0")) =
        Option.none →
      stream_ndjson s tkArg ssArg sArg = s.since 0 ∧
      ((∀ e ∈ s.events, (keyIntM e "id").isSome = true) →
        ∃ l, s.since 0 = some l ∧ l.Perm s.events)) := by
  constructor
  · intro h1 h2 h3
    simp only [stream_ndjson, if_pos (And.intro h1 h2), h3, Option.getD_none]
  · intro h h4
    have hcond : ¬ (pyStrip (tkArg.getD "") ≠ "" ∧ pyStrip (ssArg.getD "") ≠ "") := by
      rcases h with h | h
      · exact fun hc => hc.1 h
      · exact fun hc => hc.2 h
    constructor
    · simp only [stream_ndjson, if_neg hcond, h4, Option.getD_none]
    · intro hw
      obtain ⟨l, hl, hperm, _⟩ := since_eq s 0 hw
      refine ⟨l, hl, ?_⟩
      simpa using hperm

/-- C10 witness: with `trader_key=x` and malformed `since_seq=5x`, the
route behaves as `since_seq "x" 0`; with no trader key and malformed
`since=abc`, it behaves as `since 0` and returns every stored record. -/
theorem c10_witness :
    stream_ndjson (Store.mk [[("trader_key", .str "x"), ("seq", .int 2), ("id", .int 1)]] 1)
        (some "x") (some "5x") Option.none =
      (Store.mk [[("trader_key", .str "x"), ("seq", .int 2), ("id", .int 1)]] 1).since_seq
        "x" 0 ∧
    stream_ndjson (Store.mk [[("id", .int 1)], [("id", .int 2)]] 2)
        Option.none Option.none (some "abc") =
      (Store.mk [[("id", .int 1)], [("id", .int 2)]] 2).since 0 ∧
    (∃ l, (Store.mk [[("id", .int 1)], [("id", .int 2)]] 2).since 0 = some l ∧
      l.Perm [[("id", .int 1)], [("id", .int 2)]]) := by
  have h1 := (c10_malformed_watermark_is_zero
    (Store.mk [[("trader_key", .str "x"), ("seq", .int 2), ("id", .int 1)]] 1)
    (some "x") (some "5x") Option.none).1 (by decide) (by decide) (by rfl)
  have h2 := (c10_malformed_watermark_is_zero
    (Store.mk [[("id", .int 1)], [("id", .int 2)]] 2)
    Option.none Option.none (some "abc")).2 (Or.inl (by rfl)) (by rfl)
  exact ⟨h1, h2.1, h2.2 (by decide)⟩

/-!  ## Validator step lemmas -/

theorem dGetD_congr (a b : Dict) (k : String) (v : PyVal)
    (h : dGet? a k = dGet? b k) : dGetD a k v = dGetD b k v := by
  unfold dGetD
  rw [h]

theorem coerceTsAt_shape (now : Int) (d d' : Dict) (h : coerceTsAt now d = some d') :
    ∃ v t, dGet? d "ts" = some v ∧ coerceTs now v = some t ∧
      d' = dSet d "ts" (.int t) := by
  unfold coerceTsAt at h
  simp only [bind, Option.bind_eq_some, pure] at h
  obtain ⟨v, hv, t, ht, he⟩ := h
  exact ⟨v, t, hv, ht, (Option.some_inj.mp he).symm⟩

theorem coerceVolAt_shape (d d' : Dict) (h : coerceVolAt d = some d') :
    ∃ v q, dGet? d "volume" = some v ∧ pyFloatCoe v = some q ∧
      d' = dSet d "volume" (.float q) := by
  unfold coerceVolAt at h
  simp only [bind, Option.bind_eq_some, pure] at h
  obtain ⟨v, hv, q, hq, he⟩ := h
  exact ⟨v, q, hv, hq, (Option.some_inj.mp he).symm⟩

theorem coerceFloatAt_shape (d : Dict) (k : String) (d' : Dict)
    (h : coerceFloatAt d k = some d') :
    ∃ q, pyFloatCoe (dGetD d k (.float 0)) = some q ∧ d' = dSet d k (.float q) := by
  unfold coerceFloatAt at h
  simp only [Option.map_eq_some'] at h
  obtain ⟨q, hq, he⟩ := h
  exact ⟨q, hq, he.symm⟩

theorem coerceIntAt_shape (d : Dict) (k : String) (d' : Dict)
    (h : coerceIntAt d k = some d') :
    ∃ m, pyIntCoe (dGetD d k (.int 0)) = some m ∧ d' = dSet d k (.int m) := by
  unfold coerceIntAt at h
  simp only [Option.map_eq_some'] at h
  obtain ⟨m, hm, he⟩ := h
  exact ⟨m, hm, he.symm⟩

theorem coerceOptIntAt_shape (d : Dict) (k : String) (d' : Dict)
    (h : coerceOptIntAt d k = some d') :
    d' = d ∨ ∃ m, d' = dSet d k (.int m) := by
  unfold coerceOptIntAt at h
  rcases hv : dGet? d k with _ | v
  · rw [hv] at h
    exact Or.inl (Option.some_inj.mp h).symm
  · rw [hv] at h
    simp only [Option.map_eq_some'] at h
    obtain ⟨m, _, he⟩ := h
    exact Or.inr ⟨m, he.symm⟩

theorem coerceOptFloatAt_shape (d : Dict) (k : String) (d' : Dict)
    (h : coerceOptFloatAt d k = some d') :
    d' = d ∨ ∃ q, d' = dSet d k (.float q) := by
  unfold coerceOptFloatAt at h
  rcases hv : dGet? d k with _ | v
  · rw [hv] at h
    exact Or.inl (Option.some_inj.mp h).symm
  · rw [hv] at h
    simp only [Option.map_eq_some'] at h
    obtain ⟨q, _, he⟩ := h
    exact Or.inr ⟨q, he.symm⟩

theorem coerceTsAt_pres (now : Int) (d d' : Dict) (k : String)
    (h : coerceTsAt now d = some d') (hk : k ≠ "ts") :
    dGet? d' k = dGet? d k := by
  obtain ⟨v, t, _, _, he⟩ := coerceTsAt_shape now d d' h
  rw [he, dGet?_dSet_ne _ _ _ _ hk]

theorem coerceVolAt_pres (d d' : Dict) (k : String)
    (h : coerceVolAt d = some d') (hk : k ≠ "volume") :
    dGet? d' k = dGet? d k := by
  obtain ⟨v, q, _, _, he⟩ := coerceVolAt_shape d d' h
  rw [he, dGet?_dSet_ne _ _ _ _ hk]

theorem coerceFloatAt_pres (d : Dict) (kw : String) (d' : Dict) (k : String)
    (h : coerceFloatAt d kw = some d') (hk : k ≠ kw) :
    dGet? d' k = dGet? d k := by
  obtain ⟨q, _, he⟩ := coerceFloatAt_shape d kw d' h
  rw [he, dGet?_dSet_ne _ _ _ _ hk]

theorem coerceIntAt_pres (d : Dict) (kw : String) (d' : Dict) (k : String)
    (h : coerceIntAt d kw = some d') (hk : k ≠ kw) :
    dGet? d' k = dGet? d k := by
  obtain ⟨m, _, he⟩ := coerceIntAt_shape d kw d' h
  rw [he, dGet?_dSet_ne _ _ _ _ hk]

theorem coerceOptIntAt_pres (d : Dict) (kw : String) (d' : Dict) (k : String)
    (h : coerceOptIntAt d kw = some d') (hk : k ≠ kw) :
    dGet? d' k = dGet? d k := by
  rcases coerceOptIntAt_shape d kw d' h with he | ⟨m, he⟩
  · rw [he]
  · rw [he, dGet?_dSet_ne _ _ _ _ hk]

theorem coerceOptFloatAt_pres (d : Dict) (kw : String) (d' : Dict) (k : String)
    (h : coerceOptFloatAt d kw = some d') (hk : k ≠ kw) :
    dGet? d' k = dGet? d k := by
  rcases coerceOptFloatAt_shape d kw d' h with he | ⟨q, he⟩
  · rw [he]
  · rw [he, dGet?_dSet_ne _ _ _ _ hk]

theorem tryCoerce_steps (now : Int) (evt e : Dict) (h : tryCoerce now evt = some e) :
    ∃ e1 e2 e3 e4 e5 e6 e7 e8 e9 e10,
      coerceTsAt now evt = some e1 ∧ coerceVolAt e1 = some e2 ∧
      coerceFloatAt e2 "sl" = some e3 ∧ coerceFloatAt e3 "tp" = some e4 ∧
      coerceIntAt e4 "position_id" = some e5 ∧ coerceIntAt e5 "deal_ticket" = some e6 ∧
      coerceIntAt e6 "order_ticket" = some e7 ∧ coerceIntAt e7 "magic" = some e8 ∧
      coerceOptIntAt e8 "seq" = some e9 ∧ coerceOptFloatAt e9 "acc_balance" = some e10 ∧
      coerceOptFloatAt e10 "acc_equity" = some e := by
  unfold tryCoerce at h
  simp only [bind, Option.bind_eq_some, pure] at h
  obtain ⟨e1, h1, e2, h2, e3, h3, e4, h4, e5, h5, e6, h6, e7, h7, e8, h8, e9, h9, e10,
    h10, e11, h11, he⟩ := h
  rw [Option.some_inj.mp he] at h11
  exact ⟨e1, e2, e3, e4, e5, e6, e7, e8, e9, e10, h1, h2, h3, h4, h5, h6, h7, h8, h9,
    h10, h11⟩

/-- The overall effect of the `try` block on the six float/int fields and
on `action`: each coerced field of the output holds the coerced value of
the corresponding input field, and `action` is untouched. -/
theorem tryCoerce_fields (now : Int) (evt e : Dict) (h : tryCoerce now evt = some e) :
    (∃ q, pyFloatCoe (dGetD evt "sl" (.float 0)) = some q ∧
      dGet? e "sl" = some (.float q)) ∧
    (∃ q, pyFloatCoe (dGetD evt "tp" (.float 0)) = some q ∧
      dGet? e "tp" = some (.float q)) ∧
    (∃ m, pyIntCoe (dGetD evt "position_id" (.int 0)) = some m ∧
      dGet? e "position_id" = some (.int m)) ∧
    (∃ m, pyIntCoe (dGetD evt "deal_ticket" (.int 0)) = some m ∧
      dGet? e "deal_ticket" = some (.int m)) ∧
    (∃ m, pyIntCoe (dGetD evt "order_ticket" (.int 0)) = some m ∧
      dGet? e "order_ticket" = some (.int m)) ∧
    (∃ m, pyIntCoe (dGetD evt "magic" (.int 0)) = some m ∧
      dGet? e "magic" = some (.int m)) ∧
    dGet? e "action" = dGet? evt "action" := by
  obtain ⟨e1, e2, e3, e4, e5, e6, e7, e8, e9, e10, h1, h2, h3, h4, h5, h6, h7, h8, h9,
    h10, h11⟩ := tryCoerce_steps now evt e h
  have psl2 : dGet? e2 "sl" = dGet? evt "sl" := by
    rw [coerceVolAt_pres e1 e2 "sl" h2 (by decide),
      coerceTsAt_pres now evt e1 "sl" h1 (by decide)]
  have ptp3 : dGet? e3 "tp" = dGet? evt "tp" := by
    rw [coerceFloatAt_pres e2 "sl" e3 "tp" h3 (by decide),
      coerceVolAt_pres e1 e2 "tp" h2 (by decide),
      coerceTsAt_pres now evt e1 "tp" h1 (by decide)]
  have ppos4 : dGet? e4 "position_id" = dGet? evt "position_id" := by
    rw [coerceFloatAt_pres e3 "tp" e4 "position_id" h4 (by decide),
      coerceFloatAt_pres e2 "sl" e3 "position_id" h3 (by decide),
      coerceVolAt_pres e1 e2 "position_id" h2 (by decide),
      coerceTsAt_pres now evt e1 "position_id" h1 (by decide)]
  have pdeal5 : dGet? e5 "deal_ticket" = dGet? evt "deal_ticket" := by
    rw [coerceIntAt_pres e4 "position_id" e5 "deal_ticket" h5 (by decide),
      coerceFloatAt_pres e3 "tp" e4 "deal_ticket" h4 (by decide),
      coerceFloatAt_pres e2 "sl" e3 "deal_ticket" h3 (by decide),
      coerceVolAt_pres e1 e2 "deal_ticket" h2 (by decide),
      coerceTsAt_pres now evt e1 "deal_ticket" h1 (by decide)]
  have pord6 : dGet? e6 "order_ticket" = dGet? evt "order_ticket" := by
    rw [coerceIntAt_pres e5 "deal_ticket" e6 "order_ticket" h6 (by decide),
      coerceIntAt_pres e4 "position_id" e5 "order_ticket" h5 (by decide),
      coerceFloatAt_pres e3 "tp" e4 "order_ticket" h4 (by decide),
      coerceFloatAt_pres e2 "sl" e3 "order_ticket" h3 (by decide),
      coerceVolAt_pres e1 e2 "order_ticket" h2 (by decide),
      coerceTsAt_pres now evt e1 "order_ticket" h1 (by decide)]
  have pmag7 : dGet? e7 "magic" = dGet? evt "magic" := by
    rw [coerceIntAt_pres e6 "order_ticket" e7 "magic" h7 (by decide),
      coerceIntAt_pres e5 "deal_ticket" e6 "magic" h6 (by decide),
      coerceIntAt_pres e4 "position_id" e5 "magic" h5 (by decide),
      coerceFloatAt_pres e3 "tp" e4 "magic" h4 (by decide),
      coerceFloatAt_pres e2 "sl" e3 "magic" h3 (by decide),
      coerceVolAt_pres e1 e2 "magic" h2 (by decide),
      coerceTsAt_pres now evt e1 "magic" h1 (by decide)]
  obtain ⟨qsl, hqsl, hesl⟩ := coerceFloatAt_shape e2 "sl" e3 h3
  obtain ⟨qtp, hqtp, hetp⟩ := coerceFloatAt_shape e3 "tp" e4 h4
  obtain ⟨mpos, hmpos, hepos⟩ := coerceIntAt_shape e4 "position_id" e5 h5
  obtain ⟨mdeal, hmdeal, hedeal⟩ := coerceIntAt_shape e5 "deal_ticket" e6 h6
  obtain ⟨mord, hmord, heord⟩ := coerceIntAt_shape e6 "order_ticket" e7 h7
  obtain ⟨mmag, hmmag, hemag⟩ := coerceIntAt_shape e7 "magic" e8 h8
  have tail9 : ∀ k : String, k ≠ "seq" → k ≠ "acc_balance" → k ≠ "acc_equity" →
      dGet? e k = dGet? e8 k := by
    intro k hk1 hk2 hk3
    rw [coerceOptFloatAt_pres e10 "acc_equity" e k h11 hk3,
      coerceOptFloatAt_pres e9 "acc_balance" e10 k h10 hk2,
      coerceOptIntAt_pres e8 "seq" e9 k h9 hk1]
  refine ⟨⟨qsl, ?_, ?_⟩, ⟨qtp, ?_, ?_⟩, ⟨mpos, ?_, ?_⟩, ⟨mdeal, ?_, ?_⟩,
    ⟨mord, ?_, ?_⟩, ⟨mmag, ?_, ?_⟩, ?_⟩
  · rw [← dGetD_congr e2 evt "sl" (.float 0) psl2]
    exact hqsl
  · rw [tail9 "sl" (by decide) (by decide) (by decide),
      hemag, dGet?_dSet_ne _ _ _ _ (by decide : ("sl" : String) ≠ "magic"),
      heord, dGet?_dSet_ne _ _ _ _ (by decide : ("sl" : String) ≠ "order_ticket"),
      hedeal, dGet?_dSet_ne _ _ _ _ (by decide : ("sl" : String) ≠ "deal_ticket"),
      hepos, dGet?_dSet_ne _ _ _ _ (by decide : ("sl" : String) ≠ "position_id"),
      hetp, dGet?_dSet_ne _ _ _ _ (by decide : ("sl" : String) ≠ "tp"),
      hesl, dGet?_dSet_self]
  · rw [← dGetD_congr e3 evt "tp" (.float 0) ptp3]
    exact hqtp
  · rw [tail9 "tp" (by decide) (by decide) (by decide),
      hemag, dGet?_dSet_ne _ _ _ _ (by decide : ("tp" : String) ≠ "magic"),
      heord, dGet?_dSet_ne _ _ _ _ (by decide : ("tp" : String) ≠ "order_ticket"),
      hedeal, dGet?_dSet_ne _ _ _ _ (by decide : ("tp" : String) ≠ "deal_ticket"),
      hepos, dGet?_dSet_ne _ _ _ _ (by decide : ("tp" : String) ≠ "position_id"),
      hetp, dGet?_dSet_self]
  · rw [← dGetD_congr e4 evt "position_id" (.int 0) ppos4]
    exact hmpos
  · rw [tail9 "position_id" (by decide) (by decide) (by decide),
      hemag, dGet?_dSet_ne _ _ _ _ (by decide : ("position_id" : String) ≠ "magic"),
      heord, dGet?_dSet_ne _ _ _ _ (by decide : ("position_id" : String) ≠ "order_ticket"),
      hedeal, dGet?_dSet_ne _ _ _ _ (by decide : ("position_id" : String) ≠ "deal_ticket"),
      hepos, dGet?_dSet_self]
  · rw [← dGetD_congr e5 evt "deal_ticket" (.int 0) pdeal5]
    exact hmdeal
  · rw [tail9 "deal_ticket" (by decide) (by decide) (by decide),
      hemag, dGet?_dSet_ne _ _ _ _ (by decide : ("deal_ticket" : String) ≠ "magic"),
      heord, dGet?_dSet_ne _ _ _ _ (by decide : ("deal_ticket" : String) ≠ "order_ticket"),
      hedeal, dGet?_dSet_self]
  · rw [← dGetD_congr e6 evt "order_ticket" (.int 0) pord6]
    exact hmord
  · rw [tail9 "order_ticket" (by decide) (by decide) (by decide),
      hemag, dGet?_dSet_ne _ _ _ _ (by decide : ("order_ticket" : String) ≠ "magic"),
      heord, dGet?_dSet_self]
  · rw [← dGetD_congr e7 evt "magic" (.int 0) pmag7]
    exact hmmag
  · rw [tail9 "magic" (by decide) (by decide) (by decide), hemag, dGet?_dSet_self]
  · rw [tail9 "action" (by decide) (by decide) (by decide),
      hemag, dGet?_dSet_ne _ _ _ _ (by decide : ("action" : String) ≠ "magic"),
      heord, dGet?_dSet_ne _ _ _ _ (by decide : ("action" : String) ≠ "order_ticket"),
      hedeal, dGet?_dSet_ne _ _ _ _ (by decide : ("action" : String) ≠ "deal_ticket"),
      hepos, dGet?_dSet_ne _ _ _ _ (by decide : ("action" : String) ≠ "position_id"),
      hetp, dGet?_dSet_ne _ _ _ _ (by decide : ("action" : String) ≠ "tp"),
      hesl, dGet?_dSet_ne _ _ _ _ (by decide : ("action" : String) ≠ "sl"),
      coerceVolAt_pres e1 e2 "action" h2 (by decide),
      coerceTsAt_pres now evt e1 "action" h1 (by decide)]

/-!  ## Decomposing `validate_event` -/

theorem validate_ok_shape (now : Int) (evt e' : Dict)
    (h : validate_event now evt = .ok e') :
    REQUIRED_FIELDS.filter (fun k => !(dHas evt k)) = [] ∧
    ∃ e1, tryCoerce now evt = some e1 ∧
      (ACTIONS.contains (actionUpper e1) || LEGACY_ACTIONS.contains (actionUpper e1))
        = true ∧
      e' = dSet e1 "action" (.str (actionUpper e1)) := by
  simp only [validate_event] at h
  split at h
  · cases h
  · next hcond =>
      refine ⟨by by_contra hc; exact hcond hc, ?_⟩
      split at h
      · cases h
      · next e1 he1 =>
          split at h
          · next hacts =>
              exact ⟨e1, he1, hacts, (Except.ok.inj h).symm⟩
          · cases h

theorem validate_missing (now : Int) (evt : Dict)
    (hm : REQUIRED_FIELDS.filter (fun k => !(dHas evt k)) ≠ []) :
    validate_event now evt =
      .error (.missingFields (REQUIRED_FIELDS.filter (fun k => !(dHas evt k)))) := by
  simp only [validate_event]
  rw [if_pos hm]

theorem validate_invalid (now : Int) (evt : Dict)
    (hm : REQUIRED_FIELDS.filter (fun k => !(dHas evt k)) = [])
    (hnone : tryCoerce now evt = Option.none) :
    validate_event now evt = .error .invalidTypes := by
  simp only [validate_event, hm, hnone]
  rfl

theorem validate_eval (now : Int) (evt : Dict)
    (hm : REQUIRED_FIELDS.filter (fun k => !(dHas evt k)) = [])
    (e1 : Dict) (he1 : tryCoerce now evt = some e1) :
    validate_event now evt =
      (if ACTIONS.contains (actionUpper e1) || LEGACY_ACTIONS.contains (actionUpper e1)
       then .ok (dSet e1 "action" (.str (actionUpper e1)))
       else .error (.unsupportedAction (actionUpper e1))) := by
  simp only [validate_event, hm, he1]
  rfl

/-- The `try` block raises as soon as it reaches `float` of a null
stop-loss, so the whole block fails (earlier failures fail it too). -/
theorem tryCoerce_none_of_sl_null (now : Int) (evt : Dict)
    (hnull : dGet? evt "sl" = some PyVal.none) :
    tryCoerce now evt = Option.none := by
  rcases h1 : coerceTsAt now evt with _ | e1
  · simp [tryCoerce, h1, bind]
  · rcases h2 : coerceVolAt e1 with _ | e2
    · simp [tryCoerce, h1, h2, bind]
    · have hsl : dGet? e2 "sl" = some PyVal.none := by
        rw [coerceVolAt_pres e1 e2 "sl" h2 (by decide),
          coerceTsAt_pres now evt e1 "sl" h1 (by decide), hnull]
      have h3 : coerceFloatAt e2 "sl" = Option.none := by
        unfold coerceFloatAt
        rw [show dGetD e2 "sl" (.float 0) = PyVal.none by simp [dGetD, hsl]]
        rfl
      simp [tryCoerce, h1, h2, h3, bind]

/-- C5 counterexample.  The claim says the stop-loss (and the other five
fields) default when absent or null, validation succeeding.  In the code
all six are in `REQUIRED_FIELDS`, so an otherwise-valid event without
`sl` fails with `MissingFields` naming `sl`, and an otherwise-valid
event with `sl = null` fails `InvalidTypes` because `float(None)`
raises: the `.get(..., default)` defaults are unreachable. -/
theorem c5_counterexample :
    validate_event 1000
      [("ts", .int 5), ("trader_id", .str "t"), ("action", .str "BUY"),
       ("symbol", .str "X"), ("volume", .float 1),
       ("tp", .float 0), ("position_id", .int 0), ("deal_ticket", .int 0),
       ("order_ticket", .int 0), ("magic", .int 0), ("comment", .str "")] =
      .error (.missingFields ["sl"]) ∧
    validate_event 1000
      [("ts", .int 5), ("trader_id", .str "t"), ("action", .str "BUY"),
       ("symbol", .str "X"), ("volume", .float 1), ("sl", PyVal.none),
       ("tp", .float 0), ("position_id", .int 0), ("deal_ticket", .int 0),
       ("order_ticket", .int 0), ("magic", .int 0), ("comment", .str "")] =
      .error .invalidTypes := by
  exact ⟨by rfl, by rfl⟩

/-- C5 (amended).  The stop-loss, take-profit, position id, deal ticket,
order ticket and magic fields are required, not defaulted: on every
accepted event each holds the float- resp. integer-coercion of the
supplied value; an event missing `sl` is rejected with `MissingFields`
naming `sl`, and an event with all required fields present but a null
`sl` is rejected with `InvalidTypes`. -/
theorem c5_required_fields_coerced (now : Int) (evt : Dict) :
    (∀ e', validate_event now evt = .ok e' →
      (∃ v q, dGet? evt "sl" = some v ∧ pyFloatCoe v = some q ∧
        dGet? e' "sl" = some (.float q)) ∧
      (∃ v q, dGet? evt "tp" = some v ∧ pyFloatCoe v = some q ∧
        dGet? e' "tp" = some (.float q)) ∧
      (∃ v m, dGet? evt "position_id" = some v ∧ pyIntCoe v = some m ∧
        dGet? e' "position_id" = some (.int m)) ∧
      (∃ v m, dGet? evt "deal_ticket" = some v ∧ pyIntCoe v = some m ∧
        dGet? e' "deal_ticket" = some (.int m)) ∧
      (∃ v m, dGet? evt "order_ticket" = some v ∧ pyIntCoe v = some m ∧
        dGet? e' "order_ticket" = some (.int m)) ∧
      (∃ v m, dGet? evt "magic" = some v ∧ pyIntCoe v = some m ∧
        dGet? e' "magic" = some (.int m))) ∧
    (dHas evt "sl" = false →
      ∃ ks, validate_event now evt = .error (.missingFields ks) ∧ "sl" ∈ ks) ∧
    ((∀ k ∈ REQUIRED_FIELDS, dHas evt k = true) → dGet? evt "sl" = some PyVal.none →
      validate_event now evt = .error .invalidTypes) := by
  refine ⟨fun e' hok => ?_, fun habs => ?_, fun hall hnull => ?_⟩
  · obtain ⟨hm, e1, he1, hacts, he'⟩ := validate_ok_shape now evt e' hok
    have hpres : ∀ k ∈ REQUIRED_FIELDS, dHas evt k = true := by
      intro k hk
      have := List.filter_eq_nil_iff.mp hm k hk
      simpa using this
    obtain ⟨⟨qsl, hqsl, hgsl⟩, ⟨qtp, hqtp, hgtp⟩, ⟨mpos, hmpos, hgpos⟩,
      ⟨mdeal, hmdeal, hgdeal⟩, ⟨mord, hmord, hgord⟩, ⟨mmag, hmmag, hgmag⟩, _⟩ :=
      tryCoerce_fields now evt e1 he1
    have hget : ∀ k, k ≠ "action" → dGet? e' k = dGet? e1 k := by
      intro k hk
      rw [he', dGet?_dSet_ne _ _ _ _ hk]
    have hval : ∀ (k : String), dHas evt k = true →
        ∃ v, dGet? evt k = some v ∧ dGetD evt k (.float 0) = v ∧
          dGetD evt k (.int 0) = v := by
      intro k hk
      rcases hv : dGet? evt k with _ | v
      · rw [dHas, hv] at hk
        cases hk
      · exact ⟨v, rfl, by simp [dGetD, hv], by simp [dGetD, hv]⟩
    obtain ⟨vsl, hvsl, hdsl, _⟩ := hval "sl" (hpres "sl" (by decide))
    obtain ⟨vtp, hvtp, hdtp, _⟩ := hval "tp" (hpres "tp" (by decide))
    obtain ⟨vpos, hvpos, _, hdpos⟩ := hval "position_id" (hpres "position_id" (by decide))
    obtain ⟨vdeal, hvdeal, _, hddeal⟩ := hval "deal_ticket" (hpres "deal_ticket" (by decide))
    obtain ⟨vord, hvord, _, hdord⟩ := hval "order_ticket" (hpres "order_ticket" (by decide))
    obtain ⟨vmag, hvmag, _, hdmag⟩ := hval "magic" (hpres "magic" (by decide))
    refine ⟨⟨vsl, qsl, hvsl, by rw [← hdsl]; exact hqsl,
        by rw [hget "sl" (by decide)]; exact hgsl⟩,
      ⟨vtp, qtp, hvtp, by rw [← hdtp]; exact hqtp,
        by rw [hget "tp" (by decide)]; exact hgtp⟩,
      ⟨vpos, mpos, hvpos, by rw [← hdpos]; exact hmpos,
        by rw [hget "position_id" (by decide)]; exact hgpos⟩,
      ⟨vdeal, mdeal, hvdeal, by rw [← hddeal]; exact hmdeal,
        by rw [hget "deal_ticket" (by decide)]; exact hgdeal⟩,
      ⟨vord, mord, hvord, by rw [← hdord]; exact hmord,
        by rw [hget "order_ticket" (by decide)]; exact hgord⟩,
      ⟨vmag, mmag, hvmag, by rw [← hdmag]; exact hmmag,
        by rw [hget "magic" (by decide)]; exact hgmag⟩⟩
  · have hmem : "sl" ∈ REQUIRED_FIELDS.filter (fun k => !(dHas evt k)) :=
      List.mem_filter.mpr ⟨by decide, by simp [habs]⟩
    exact ⟨_, validate_missing now evt (List.ne_nil_of_mem hmem), hmem⟩
  · have hm : REQUIRED_FIELDS.filter (fun k => !(dHas evt k)) = [] :=
      List.filter_eq_nil_iff.mpr (fun k hk => by simp [hall k hk])
    exact validate_invalid now evt hm (tryCoerce_none_of_sl_null now evt hnull)

/-- C5 witness: on an accepted event, `sl = 3` (int) is stored as float
`3`, `position_id = "7"` (string) as integer `7`, and the other four
fields as their coercions; an event without `sl` is rejected naming
`sl`; an event with `sl = null` is rejected `InvalidTypes`. -/
theorem c5_witness :
    ((∃ v q, dGet?
        [("ts", .int 5), ("trader_id", .str "t"), ("action", .str "BUY"),
         ("symbol", .str "X"), ("volume", .float 1), ("sl", .int 3),
         ("tp", .float 0), ("position_id", .str "7"), ("deal_ticket", .int 0),
         ("order_ticket", .int 0), ("magic", .int 0), ("comment", .str "")] "sl"
          = some v ∧
      pyFloatCoe v = some q ∧
      dGet?
        [("ts", .int 5), ("trader_id", .str "t"), ("action", .str "BUY"),
         ("symbol", .str "X"), ("volume", .float 1), ("sl", .float 3),
         ("tp", .float 0), ("position_id", .int 7), ("deal_ticket", .int 0),
         ("order_ticket", .int 0), ("magic", .int 0), ("comment", .str "")] "sl"
          = some (.float q)) ∧
     (∃ v q, dGet?
        [("ts", .int 5), ("trader_id", .str "t"), ("action", .str "BUY"),
         ("symbol", .str "X"), ("volume", .float 1), ("sl", .int 3),
         ("tp", .float 0), ("position_id", .str "7"), ("deal_ticket", .int 0),
         ("order_ticket", .int 0), ("magic", .int 0), ("comment", .str "")] "tp"
          = some v ∧
      pyFloatCoe v = some q ∧
      dGet?
        [("ts", .int 5), ("trader_id", .str "t"), ("action", .str "BUY"),
         ("symbol", .str "X"), ("volume", .float 1), ("sl", .float 3),
         ("tp", .float 0), ("position_id", .int 7), ("deal_ticket", .int 0),
         ("order_ticket", .int 0), ("magic", .int 0), ("comment", .str "")] "tp"
          = some (.float q)) ∧
     (∃ v m, dGet?
        [("ts", .int 5), ("trader_id", .str "t"), ("action", .str "BUY"),
         ("symbol", .str "X"), ("volume", .float 1), ("sl", .int 3),
         ("tp", .float 0), ("position_id", .str "7"), ("deal_ticket", .int 0),
         ("order_ticket", .int 0), ("magic", .int 0), ("comment", .str "")]
          "position_id" = some v ∧
      pyIntCoe v = some m ∧
      dGet?
        [("ts", .int 5), ("trader_id", .str "t"), ("action", .str "BUY"),
         ("symbol", .str "X"), ("volume", .float 1), ("sl", .float 3),
         ("tp", .float 0), ("position_id", .int 7), ("deal_ticket", .int 0),
         ("order_ticket", .int 0), ("magic", .int 0), ("comment", .str "")]
          "position_id" = some (.int m)) ∧
     (∃ v m, dGet?
        [("ts", .int 5), ("trader_id", .str "t"), ("action", .str "BUY"),
         ("symbol", .str "X"), ("volume", .float 1), ("sl", .int 3),
         ("tp", .float 0), ("position_id", .str "7"), ("deal_ticket", .int 0),
         ("order_ticket", .int 0), ("magic", .int 0), ("comment", .str "")]
          "deal_ticket" = some v ∧
      pyIntCoe v = some m ∧
      dGet?
        [("ts", .int 5), ("trader_id", .str "t"), ("action", .str "BUY"),
         ("symbol", .str "X"), ("volume", .float 1), ("sl", .float 3),
         ("tp", .float 0), ("position_id", .int 7), ("deal_ticket", .int 0),
         ("order_ticket", .int 0), ("magic", .int 0), ("comment", .str "")]
          "deal_ticket" = some (.int m)) ∧
     (∃ v m, dGet?
        [("ts", .int 5), ("trader_id", .str "t"), ("action", .str "BUY"),
         ("symbol", .str "X"), ("volume", .float 1), ("sl", .int 3),
         ("tp", .float 0), ("position_id", .str "7"), ("deal_ticket", .int 0),
         ("order_ticket", .int 0), ("magic", .int 0), ("comment", .str "")]
          "order_ticket" = some v ∧
      pyIntCoe v = some m ∧
      dGet?
        [("ts", .int 5), ("trader_id", .str "t"), ("action", .str "BUY"),
         ("symbol", .str "X"), ("volume", .float 1), ("sl", .float 3),
         ("tp", .float 0), ("position_id", .int 7), ("deal_ticket", .int 0),
         ("order_ticket", .int 0), ("magic", .int 0), ("comment", .str "")]
          "order_ticket" = some (.int m)) ∧
     (∃ v m, dGet?
        [("ts", .int 5), ("trader_id", .str "t"), ("action", .str "BUY"),
         ("symbol", .str "X"), ("volume", .float 1), ("sl", .int 3),
         ("tp", .float 0), ("position_id", .str "7"), ("deal_ticket", .int 0),
         ("order_ticket", .int 0), ("magic", .int 0), ("comment", .str "")] "magic"
          = some v ∧
      pyIntCoe v = some m ∧
      dGet?
        [("ts", .int 5), ("trader_id", .str "t"), ("action", .str "BUY"),
         ("symbol", .str "X"), ("volume", .float 1), ("sl", .float 3),
         ("tp", .float 0), ("position_id", .int 7), ("deal_ticket", .int 0),
         ("order_ticket", .int 0), ("magic", .int 0), ("comment", .str "")] "magic"
          = some (.int m))) ∧
    (∃ ks, validate_event 1000
        [("ts", .int 5), ("trader_id", .str "t"), ("action", .str "BUY"),
         ("symbol", .str "X"), ("volume", .float 1),
         ("tp", .float 0), ("position_id", .int 0), ("deal_ticket", .int 0),
         ("order_ticket", .int 0), ("magic", .int 0), ("comment", .str "")] =
        .error (.missingFields ks) ∧ "sl" ∈ ks) ∧
    validate_event 1000
        [("ts", .int 5), ("trader_id", .str "t"), ("action", .str "BUY"),
         ("symbol", .str "X"), ("volume", .float 1), ("sl", PyVal.none),
         ("tp", .float 0), ("position_id", .int 0), ("deal_ticket", .int 0),
         ("order_ticket", .int 0), ("magic", .int 0), ("comment", .str "")] =
      .error .invalidTypes := by
  refine ⟨(c5_required_fields_coerced 1000 _).1
      [("ts", .int 5), ("trader_id", .str "t"), ("action", .str "BUY"),
       ("symbol", .str "X"), ("volume", .float 1), ("sl", .float 3),
       ("tp", .float 0), ("position_id", .int 7), ("deal_ticket", .int 0),
       ("order_ticket", .int 0), ("magic", .int 0), ("comment", .str "")] (by rfl),
    (c5_required_fields_coerced 1000 _).2.1 (by rfl),
    (c5_required_fields_coerced 1000 _).2.2 (by decide) (by rfl)⟩

/-- C6.  Given the earlier validation stages pass (no missing field, all
coercions succeed), the event is accepted iff the upper-cased string
form of its `action` belongs to the eight-element action set or to the
two legacy aliases `OPEN`/`CLOSE_ALL`; acceptance stores the upper-cased
form, and any other value fails `UnsupportedAction` naming the
(upper-cased) offending value. -/
theorem c6_action_accepted_iff (now : Int) (evt e1 : Dict)
    (hm : REQUIRED_FIELDS.filter (fun k => !(dHas evt k)) = [])
    (hc : tryCoerce now evt = some e1) :
    ((∃ e', validate_event now evt = .ok e') ↔
      (actionUpper evt ∈ ACTIONS ∨ actionUpper evt ∈ LEGACY_ACTIONS)) ∧
    (∀ e', validate_event now evt = .ok e' →
      dGet? e' "action" = some (.str (actionUpper evt))) ∧
    (actionUpper evt ∉ ACTIONS → actionUpper evt ∉ LEGACY_ACTIONS →
      validate_event now evt = .error (.unsupportedAction (actionUpper evt))) := by
  have hact : actionUpper e1 = actionUpper evt := by
    unfold actionUpper
    rw [(tryCoerce_fields now evt e1 hc).2.2.2.2.2.2]
  have heval := validate_eval now evt hm e1 hc
  have hmemb : (ACTIONS.contains (actionUpper e1) ||
      LEGACY_ACTIONS.contains (actionUpper e1)) = true ↔
      (actionUpper evt ∈ ACTIONS ∨ actionUpper evt ∈ LEGACY_ACTIONS) := by
    rw [hact, Bool.or_eq_true]
    constructor
    · rintro (h | h)
      · exact Or.inl (List.elem_iff.mp h)
      · exact Or.inr (List.elem_iff.mp h)
    · rintro (h | h)
      · exact Or.inl (List.elem_iff.mpr h)
      · exact Or.inr (List.elem_iff.mpr h)
  refine ⟨⟨fun ⟨e', he'⟩ => ?_, fun hmem => ?_⟩, fun e' he' => ?_, fun hna hnl => ?_⟩
  · obtain ⟨_, e1', hc', hacts', _⟩ := validate_ok_shape now evt e' he'
    rw [hc'] at hc
    rw [Option.some_inj.mp hc] at hacts'
    exact hmemb.mp hacts'
  · refine ⟨dSet e1 "action" (.str (actionUpper e1)), ?_⟩
    rw [heval, if_pos (hmemb.mpr hmem)]
  · obtain ⟨_, e1', hc', hacts', heq'⟩ := validate_ok_shape now evt e' he'
    rw [hc'] at hc
    have he1 : e1' = e1 := Option.some_inj.mp hc
    rw [heq', he1, dGet?_dSet_self, hact]
  · rw [heval, if_neg]
    · rw [hact]
    · rw [hmemb]
      rintro (h | h)
      · exact hna h
      · exact hnl h

/-- C6 witness: with every other stage passing, `action: "open_buy"` is
accepted and stored as `OPEN_BUY`, while `action: "TELEPORT"` is
rejected with `UnsupportedAction "TELEPORT"`. -/
theorem c6_witness :
    validate_event 1000
      [("ts", .int 5), ("trader_id", .str "t"), ("action", .str "open_buy"),
       ("symbol", .str "X"), ("volume", .float 1), ("sl", .float 0),
       ("tp", .float 0), ("position_id", .int 0), ("deal_ticket", .int 0),
       ("order_ticket", .int 0), ("magic", .int 0), ("comment", .str "")] =
      .ok
      [("ts", .int 5), ("trader_id", .str "t"), ("action", .str "OPEN_BUY"),
       ("symbol", .str "X"), ("volume", .float 1), ("sl", .float 0),
       ("tp", .float 0), ("position_id", .int 0), ("deal_ticket", .int 0),
       ("order_ticket", .int 0), ("magic", .int 0), ("comment", .str "")] ∧
    (∃ e', validate_event 1000
      [("ts", .int 5), ("trader_id", .str "t"), ("action", .str "open_buy"),
       ("symbol", .str "X"), ("volume", .float 1), ("sl", .float 0),
       ("tp", .float 0), ("position_id", .int 0), ("deal_ticket", .int 0),
       ("order_ticket", .int 0), ("magic", .int 0), ("comment", .str "")] = .ok e' ∧
      dGet? e' "action" = some (.str "OPEN_BUY")) ∧
    validate_event 1000
      [("ts", .int 5), ("trader_id", .str "t"), ("action", .str "TELEPORT"),
       ("symbol", .str "X"), ("volume", .float 1), ("sl", .float 0),
       ("tp", .float 0), ("position_id", .int 0), ("deal_ticket", .int 0),
       ("order_ticket", .int 0), ("magic", .int 0), ("comment", .str "")] =
      .error (.unsupportedAction "TELEPORT") := by
  have h1 := c6_action_accepted_iff 1000
    [("ts", .int 5), ("trader_id", .str "t"), ("action", .str "open_buy"),
     ("symbol", .str "X"), ("volume", .float 1), ("sl", .float 0),
     ("tp", .float 0), ("position_id", .int 0), ("deal_ticket", .int 0),
     ("order_ticket", .int 0), ("magic", .int 0), ("comment", .str "")]
    [("ts", .int 5), ("trader_id", .str "t"), ("action", .str "open_buy"),
     ("symbol", .str "X"), ("volume", .float 1), ("sl", .float 0),
     ("tp", .float 0), ("position_id", .int 0), ("deal_ticket", .int 0),
     ("order_ticket", .int 0), ("magic", .int 0), ("comment", .str "")]
    (by rfl) (by rfl)
  have h2 := c6_action_accepted_iff 1000
    [("ts", .int 5), ("trader_id", .str "t"), ("action", .str "TELEPORT"),
     ("symbol", .str "X"), ("volume", .float 1), ("sl", .float 0),
     ("tp", .float 0), ("position_id", .int 0), ("deal_ticket", .int 0),
     ("order_ticket", .int 0), ("magic", .int 0), ("comment", .str "")]
    [("ts", .int 5), ("trader_id", .str "t"), ("action", .str "TELEPORT"),
     ("symbol", .str "X"), ("volume", .float 1), ("sl", .float 0),
     ("tp", .float 0), ("position_id", .int 0), ("deal_ticket", .int 0),
     ("order_ticket", .int 0), ("magic", .int 0), ("comment", .str "")]
    (by rfl) (by rfl)
  obtain ⟨eok, heok⟩ := h1.1.mpr (Or.inl (by decide))
  refine ⟨by rfl, ⟨eok, heok, ?_⟩, ?_⟩
  · have := h1.2.1 eok heok
    rw [this]
    rfl
  · have := h2.2.2 (by decide) (by decide)
    rw [this]
    rfl

/-!  ## Timestamp coercion lemmas (C7) -/

theorem dropWhile_all_false (p : α → Bool) (l : List α)
    (h : ∀ a ∈ l, p a = false) : l.dropWhile p = l := by
  cases l with
  | nil => rfl
  | cons a as => simp [List.dropWhile_cons, h a (List.mem_cons_self a as)]

theorem isDigit_not_space (c : Char) (h : c.isDigit = true) : isPySpace c = false := by
  by_contra hc
  rw [Bool.not_eq_false] at hc
  simp only [isPySpace, Bool.or_eq_true, beq_iff_eq] at hc
  rcases hc with ((((rfl | rfl) | rfl) | rfl) | rfl) | rfl <;> exact absurd h (by decide)

theorem pyStrip_digits (s : String) (h : ∀ c ∈ s.data, c.isDigit = true) :
    pyStrip s = s := by
  obtain ⟨cs⟩ := s
  unfold pyStrip
  have h1 : cs.dropWhile isPySpace = cs :=
    dropWhile_all_false _ _ (fun c hc => isDigit_not_space c (h c hc))
  show String.mk ((((String.mk cs).data.dropWhile isPySpace).reverse.dropWhile
    isPySpace).reverse) = String.mk cs
  have h2 : (String.mk cs).data = cs := rfl
  rw [h2, h1]
  have h3 : cs.reverse.dropWhile isPySpace = cs.reverse :=
    dropWhile_all_false _ _
      (fun c hc => isDigit_not_space c (h c (List.mem_reverse.mp hc)))
  rw [h3, List.reverse_reverse]

theorem pyIntOfString_digits (cs : List Char) (hne : cs ≠ [])
    (h : ∀ c ∈ cs, c.isDigit = true) :
    pyIntOfString ⟨cs⟩ = some (Int.ofNat (digitsVal cs)) := by
  have hstrip : pyStrip ⟨cs⟩ = ⟨cs⟩ := pyStrip_digits ⟨cs⟩ h
  unfold pyIntOfString
  rw [hstrip]
  rcases cs with _ | ⟨c, rest⟩
  · exact absurd rfl hne
  · have hc : c.isDigit = true := h c (List.mem_cons_self c rest)
    have hcp : ¬ (c = '+') := by rintro rfl; exact absurd hc (by decide)
    have hcm : ¬ (c = '-') := by rintro rfl; exact absurd hc (by decide)
    have hdec : decDigits? (c :: rest) = some (digitsVal (c :: rest)) := by
      unfold decDigits?
      rw [if_pos ⟨by simp, List.all_eq_true.mpr h⟩]
    simp [hcp, hcm, hdec]

theorem pyIsDigit_floatStr (q : ℚ) : pyIsDigit (floatStr q) = false := by
  unfold floatStr pyIsDigit
  by_cases hq : q.den = 1
  · rw [if_pos hq]
    have hmem : '.' ∈ (toString q.num ++ ".0").data := by
      show '.' ∈ (toString q.num).data ++ ('.' :: ['0'])
      exact List.mem_append_right _ (List.mem_cons_self _ _)
    have hall : ((toString q.num ++ ".0").data.all isPyDigitChar) = false :=
      List.all_eq_false.mpr ⟨'.', hmem, by decide⟩
    rw [hall, Bool.and_false]
  · rw [if_neg hq]
    have hmem : '/' ∈ (toString q.num ++ "/" ++ toString q.den).data := by
      show '/' ∈ ((toString q.num).data ++ ['/']) ++ (toString q.den).data
      exact List.mem_append_left _ (List.mem_append_right _ (List.mem_cons_self _ _))
    have hall : ((toString q.num ++ "/" ++ toString q.den).data.all isPyDigitChar)
        = false :=
      List.all_eq_false.mpr ⟨'/', hmem, by decide⟩
    rw [hall, Bool.and_false]

/-- C7 counterexample.  The claim says no timestamp value can cause a
type failure.  Python's `str.isdigit` accepts the superscript digit `²`,
but `int("²")` raises: an otherwise-valid event with `ts = "²"` takes
the `int(evt["ts"])` branch, the conversion raises, and validation fails
with `InvalidTypes`. -/
theorem c7_counterexample :
    pyIsDigit "²" = true ∧
    coerceTs 999 (.str "²") = Option.none ∧
    validate_event 999
      [("ts", .str "²"), ("trader_id", .str "t"), ("action", .str "BUY"),
       ("symbol", .str "X"), ("volume", .float 1), ("sl", .float 0),
       ("tp", .float 0), ("position_id", .int 0), ("deal_ticket", .int 0),
       ("order_ticket", .int 0), ("magic", .int 0), ("comment", .str "")] =
      .error .invalidTypes := by
  refine ⟨by decide, by decide, by rfl⟩

/-- C7 (amended).  For every timestamp value whose string form contains
no digit-classified character outside the ASCII decimal digits (every
value except strings with Unicode digits such as `"²"`), the timestamp
step never fails: it converts the original value with `int()` when the
string form is a pure digit string, and otherwise silently substitutes
the current ingest time. -/
theorem c7_ts_step_total (now : Int) (v : PyVal)
    (hs : ∀ c ∈ (pyStrOf v).data, superscriptDigits.contains c = false) :
    ∃ t : Int, coerceTs now v = some t ∧
      (pyIsDigit (pyStrOf v) = true → pyIntCoe v = some t) ∧
      (pyIsDigit (pyStrOf v) = false → t = now) := by
  cases hd : pyIsDigit (pyStrOf v) with
  | false =>
      refine ⟨now, ?_, fun hf => absurd hf (by decide), fun _ => rfl⟩
      unfold coerceTs
      rw [hd]
      rfl
  | true =>
      cases v with
      | none => exact absurd hd (by decide)
      | bool b => cases b <;> exact absurd hd (by decide)
      | int n =>
          refine ⟨n, ?_, fun _ => rfl, fun hf => absurd hf (by decide)⟩
          unfold coerceTs
          rw [hd]
          rfl
      | float q =>
          refine absurd hd ?_
          rw [show pyStrOf (PyVal.float q) = floatStr q from rfl, pyIsDigit_floatStr]
          decide
      | str s =>
          obtain ⟨cs⟩ := s
          have hd' : pyIsDigit ⟨cs⟩ = true := hd
          have hsplit : cs ≠ [] ∧ ∀ c ∈ cs, isPyDigitChar c = true := by
            unfold pyIsDigit at hd'
            rw [Bool.and_eq_true] at hd'
            refine ⟨?_, List.all_eq_true.mp hd'.2⟩
            intro h0
            rw [show String.mk cs = "" by rw [h0]] at hd'
            exact absurd hd'.1 (by decide)
          have hdig : ∀ c ∈ cs, c.isDigit = true := by
            intro c hc
            have h1 := hsplit.2 c hc
            have h2 := hs c hc
            unfold isPyDigitChar at h1
            rw [Bool.or_eq_true] at h1
            rcases h1 with h1 | h1
            · exact h1
            · rw [h2] at h1
              cases h1
          have hint := pyIntOfString_digits cs hsplit.1 hdig
          refine ⟨Int.ofNat (digitsVal cs), ?_, fun _ => hint,
            fun hf => absurd hf (by decide)⟩
          unfold coerceTs
          rw [hd]
          exact hint

/-- C7 witness: `ts = "123"` (pure digit string) converts to the integer
123; `ts = "12h30"` is silently replaced by the ingest time 777; neither
fails. -/
theorem c7_witness :
    (∃ t : Int, coerceTs 777 (.str "123") = some t ∧
      (pyIsDigit (pyStrOf (.str "123")) = true → pyIntCoe (.str "123") = some t) ∧
      (pyIsDigit (pyStrOf (.str "123")) = false → t = 777)) ∧
    (∃ t : Int, coerceTs 777 (.str "12h30") = some t ∧
      (pyIsDigit (pyStrOf (.str "12h30")) = true → pyIntCoe (.str "12h30") = some t) ∧
      (pyIsDigit (pyStrOf (.str "12h30")) = false → t = 777)) ∧
    coerceTs 777 (.str "123") = some 123 ∧
    coerceTs 777 (.str "12h30") = some 777 := by
  exact ⟨c7_ts_step_total 777 (.str "123") (by decide),
    c7_ts_step_total 777 (.str "12h30") (by decide), by decide, by decide⟩
